import Mathlib

/-!
Shallow embedding of `musdb/__init__.py` from the `lr_musdb` repository.

Filesystem paths are modelled as lists of name components; `os.path.join`
with single-component arguments is list append.  The filesystem itself is a
tree of named entries, `os.walk` is the top-down traversal of that tree, and
`os.path.exists` is a lookup.  Python dictionaries that the code iterates are
modelled as association lists in insertion order; numbers coming from the
configuration are modelled as rationals (the code's `float(...)` conversion is
the identity on this model).  Fallible Python code is modelled in `Except`:
`RuntimeError`, `AttributeError` (reading a never-assigned attribute),
`ValueError` (`list.index` on a missing element) and `FileExistsError`
(`os.makedirs` on an existing leaf directory).
-/

namespace LrMusdb

/-- A node of the modelled filesystem: a plain file or a directory with an
ordered list of named entries (the list order models the OS listing order). -/
inductive FSNode where
  | file : FSNode
  | dir : List (String × FSNode) → FSNode

/-- First entry with the given name, as Python's directory-entry lookup. -/
def findEntry (name : String) : List (String × FSNode) → Option FSNode
  | [] => none
  | e :: rest => if e.1 = name then some e.2 else findEntry name rest

/-- Resolve a path (list of components) against a node; `os.path` lookup. -/
def FSNode.lookup : FSNode → List String → Option FSNode
  | n, [] => some n
  | .file, _ :: _ => none
  | .dir es, c :: rest =>
    match findEntry c es with
    | some node => node.lookup rest
    | none => none

/-- `os.path.exists`. -/
def pathExists (fs : FSNode) (p : List String) : Bool :=
  (fs.lookup p).isSome

/-- Names of the subdirectories of a directory's entry list, in listing order. -/
def dirNames (es : List (String × FSNode)) : List String :=
  es.filterMap fun e =>
    match e.2 with
    | .dir _ => some e.1
    | .file => none

/-- Names of the plain files of a directory's entry list, in listing order. -/
def fileNames (es : List (String × FSNode)) : List String :=
  es.filterMap fun e =>
    match e.2 with
    | .file => some e.1
    | .dir _ => none

/-- One `os.walk` tuple: `(dirpath, dirnames, filenames)`. -/
abbrev WalkEntry := List String × List String × List String

mutual
/-- Top-down `os.walk` of a single node at a given path: a file contributes
nothing, a directory contributes its own tuple followed by the walks of its
subdirectories in listing order. -/
def walkNode : FSNode → List String → List WalkEntry
  | .file, _ => []
  | .dir es, p => (p, dirNames es, fileNames es) :: walkEntries es p

/-- Walks of a directory's entries, in listing order. -/
def walkEntries : List (String × FSNode) → List String → List WalkEntry
  | [], _ => []
  | e :: rest, p => walkNode e.2 (p ++ [e.1]) ++ walkEntries rest p
end

/-- `os.walk(top)`: nothing when `top` does not resolve to a directory. -/
def osWalk (fs : FSNode) (top : List String) : List WalkEntry :=
  match fs.lookup top with
  | some n => walkNode n top
  | none => []

/-- Lexicographic comparison of character lists by code point — the order
Python's default string comparison uses. -/
def charsLe : List Char → List Char → Bool
  | [], _ => true
  | _ :: _, [] => false
  | c :: cs, d :: ds =>
    if c.val.toNat < d.val.toNat then true
    else if d.val.toNat < c.val.toNat then false
    else charsLe cs ds

/-- Python's `<=` on strings: lexicographic by code point. -/
def pyStrLe (a b : String) : Bool := charsLe a.data b.data

/-- Insert a string into an already sorted list, keeping earlier-inserted
equal elements behind it (stability, as Python's `sorted`). -/
def insertSorted (x : String) : List String → List String
  | [] => [x]
  | y :: rest => if pyStrLe x y then x :: y :: rest else y :: insertSorted x rest

/-- Python's `sorted` on strings (ascending, stable insertion sort). -/
def pySorted : List String → List String
  | [] => []
  | x :: rest => insertSorted x (pySorted rest)

/-- First value bound to a key in an association list (Python dict lookup /
`key in dict` membership when combined with `Option.isSome`). -/
def alookup {κ β : Type} [DecidableEq κ] (l : List (κ × β)) (k : κ) : Option β :=
  match l with
  | [] => none
  | e :: rest => if e.1 = k then some e.2 else alookup rest k

/-- The loaded `mus.yaml` configuration, as the already-parsed mapping the
code reads from `self.setup`.  `stem_ids` is the stem-id mapping read with
`self.setup['stem_ids'][name]`. -/
structure Setup where
  sample_rate : Option ℚ
  sources : List (String × String)
  targets : List (String × List (String × ℚ))
  stem_ids : String → Int
  validation_tracks : List String
  mixture : String

/-- Modelled from the spec: the `Source` entity of `audio_classes` (whose
file is not under `src/`): one instrument stem with `name`, `path`,
`stem_id`, `sample_rate` and a mutable `gain` defaulting to 1.0 (spec §3).
The non-owning back-reference to the owning track is omitted. -/
structure Source where
  name : String
  path : List String
  stem_id : Int
  sample_rate : Option ℚ
  gain : ℚ := 1
deriving DecidableEq

/-- Modelled from the spec: the `Target` entity of `audio_classes` (whose
file is not under `src/`): a named mix holding the ordered list of its
constituent sources (spec §3). -/
structure Target where
  name : String
  sources : List Source
deriving DecidableEq

/-- Modelled from the spec: the `MultiTrack` entity of `audio_classes`
(whose file is not under `src/`): one track instance with the attributes the
indexer assigns; `sources` and `targets` are the ordered mappings attached
right after construction (spec §3). -/
structure MultiTrack where
  name : String
  path : List String
  subset : String
  is_wav : Bool
  stem_id : Int
  sample_rate : Option ℚ
  sources : List (String × Source)
  targets : List (String × Target)
deriving DecidableEq

/-- Python exceptions that the modelled code can raise. -/
inductive PyError where
  | runtimeError : String → PyError
  | attributeError : PyError
  | valueError : PyError
  | fileExistsError : PyError
deriving DecidableEq

/-- The `DB` object's fields after `__init__` has run its assignments.
`sample_rate = none` models the attribute never having been assigned (the
guarded assignment on line 98-99 of the source was skipped), so that reading
it raises `AttributeError`; `sample_rate = some v` models `self.sample_rate
= v` (where `v` itself may be Python `None`). -/
structure DB where
  root : String
  setup : Setup
  is_wav : Bool
  data_path : List String
  instrument : String
  sample_rate : Option (Option ℚ)

/-- Reading `self.sample_rate`: `AttributeError` when never assigned. -/
def readSampleRate (db : DB) : Except PyError (Option ℚ) :=
  match db.sample_rate with
  | some v => .ok v
  | none => .error .attributeError

/-- Concatenation of the results of a fallible list body, stopping at the
first exception: the accumulation pattern of the nested `for` loops of
`load_mus_tracks` (`tracks.append(...)` inside loops over walked lists). -/
def exceptFlatMap {α β : Type} (f : α → Except PyError (List β)) :
    List α → Except PyError (List β)
  | [] => .ok []
  | a :: rest =>
    match f a with
    | .error e => .error e
    | .ok bs =>
      match exceptFlatMap f rest with
      | .error e => .error e
      | .ok cs => .ok (bs ++ cs)

/-- Lines 196-214: for each declared source, include a `Source` in the
(ordered) mapping exactly when a file exists at
`track_folder/folder_num/source_file`. -/
def buildSources (db : DB) (fs : FSNode) (track_folder : List String)
    (folder_num : String) (sr : Option ℚ) : List (String × Source) :=
  db.setup.sources.filterMap fun sf =>
    let abs_path := track_folder ++ [folder_num, sf.2]
    if pathExists fs abs_path then
      some (sf.1,
        { name := sf.1, path := abs_path, stem_id := db.setup.stem_ids sf.1,
          sample_rate := sr, gain := 1 })
    else none

/-- Line 233: `track.sources[source].gain = float(gain)` — updating the
shared mutable `Source` object bound to `name` in the sources mapping. -/
def setGain (sources : List (String × Source)) (name : String) (g : ℚ) :
    List (String × Source) :=
  sources.map fun ns => if ns.1 = name then (ns.1, { ns.2 with gain := g }) else ns

/-- Lines 230-235: the inner loop of `create_targets` over one target's
declared `(source, gain)` pairs.  Returns the sources mapping after the gain
assignments together with the names, in append order, of the sources that
were appended to `target_sources` (the Python list holds references to the
shared `Source` objects, so we record names and materialise the final
objects afterwards). -/
def composePairs (sources : List (String × Source)) :
    List (String × ℚ) → List (String × Source) × List String
  | [] => (sources, [])
  | p :: rest =>
    if (alookup sources p.1).isSome then
      let step := composePairs (setGain sources p.1 p.2) rest
      (step.1, p.1 :: step.2)
    else composePairs sources rest

/-- Lines 224-243: the outer loop of `create_targets` over the declared
targets, threading the mutable sources mapping; a target whose
`target_sources` list stayed empty is not added. -/
def createTargetsAux (sources : List (String × Source)) :
    List (String × List (String × ℚ)) →
      List (String × Source) × List (String × List String)
  | [] => (sources, [])
  | tp :: rest =>
    let step := composePairs sources tp.2
    let next := createTargetsAux step.1 rest
    if step.2.isEmpty then (next.1, next.2)
    else (next.1, (tp.1, step.2) :: next.2)

/-- A `Target` as observed after all of `create_targets` has run: its source
list holds references to the shared `Source` objects, so each recorded name
resolves to the object's final state in the final sources mapping. -/
def materializeTarget (finalSources : List (String × Source)) (tname : String)
    (names : List String) : Target :=
  { name := tname, sources := names.filterMap (alookup finalSources) }

/-- `DB.create_targets` (lines 222-243), returning the final state of the
track's sources mapping (the shared objects after all gain assignments) and
the ordered targets mapping. -/
def create_targets (setup : Setup) (sources : List (String × Source)) :
    List (String × Source) × List (String × Target) :=
  let res := createTargetsAux sources setup.targets
  (res.1, res.2.map fun t => (t.1, materializeTarget res.1 t.1 t.2))

/-- Lines 183-218: construction of one `MultiTrack` for a retained
`(track_name, folder_num)` pair.  Constructing `MultiTrack` reads
`self.sample_rate` (line 193), which raises `AttributeError` when the
attribute was never assigned. -/
def buildTrack (db : DB) (fs : FSNode) (subset : String) (track_name : String)
    (track_folder : List String) (folder_num : String) :
    Except PyError MultiTrack :=
  match db.sample_rate with
  | none => .error .attributeError
  | some sr =>
    let sources := buildSources db fs track_folder folder_num sr
    let st := create_targets db.setup sources
    .ok { name := track_name,
          path := track_folder ++ [folder_num, db.setup.mixture],
          subset := subset, is_wav := db.is_wav,
          stem_id := db.setup.stem_ids ("mixture"),
          sample_rate := sr, sources := st.1, targets := st.2 }

/-- The track `buildTrack` returns when reading `self.sample_rate`
succeeded with value `sr`. -/
def builtTrack (db : DB) (fs : FSNode) (subset : String) (track_name : String)
    (track_folder : List String) (folder_num : String) (sr : Option ℚ) :
    MultiTrack :=
  let sources := buildSources db fs track_folder folder_num sr
  let st := create_targets db.setup sources
  { name := track_name,
    path := track_folder ++ [folder_num, db.setup.mixture],
    subset := subset, is_wav := db.is_wav,
    stem_id := db.setup.stem_ids ("mixture"),
    sample_rate := sr, sources := st.1, targets := st.2 }

/-- Lines 180-218: the inner `os.walk(track_folder)` loop — for every walked
tuple, every sorted subdirectory name `folder_num` yields one track. -/
def tracksForName (db : DB) (fs : FSNode) (subset : String) (track_name : String)
    (track_folder : List String) : Except PyError (List MultiTrack) :=
  exceptFlatMap
    (fun entry =>
      exceptFlatMap
        (fun folder_num =>
          match buildTrack db fs subset track_name track_folder folder_num with
          | .error e => .error e
          | .ok t => .ok [t])
        (pySorted entry.2.1))
    (osWalk fs track_folder)

/-- Lines 172-176: the split filter applied to a candidate track name
(`continue` skips the name). -/
def keepTrack (setup : Setup) (subset : String) (split : Option String)
    (track_name : String) : Bool :=
  if subset = "train" then
    if split = some "train" ∧ track_name ∈ setup.validation_tracks then false
    else if split = some "valid" ∧ track_name ∉ setup.validation_tracks then false
    else true
  else true

/-- Lines 168-218: the body run for one tuple of the outer
`os.walk(subset_folder/instrument)` loop.  Everything is guarded by
`if self.is_wav:`, which has no `else` branch. -/
def tracksForWalkEntry (db : DB) (fs : FSNode) (subset : String)
    (split : Option String) (entry : WalkEntry) :
    Except PyError (List MultiTrack) :=
  if db.is_wav then
    exceptFlatMap
      (fun track_name =>
        if keepTrack db.setup subset split track_name then
          tracksForName db fs subset track_name
            (db.data_path ++ [subset, db.instrument, track_name])
        else .ok [])
      (pySorted entry.2.1)
  else .ok []

/-- The `subsets` argument of `load_mus_tracks`: Python `None`, a single
string, or a list of strings. -/
inductive SubsetsArg where
  | noneArg : SubsetsArg
  | strArg : String → SubsetsArg
  | listArg : List String → SubsetsArg

/-- Lines 156-160: `None` becomes `['train', 'test']`, a string becomes a
one-element list. -/
def normalizeSubsets : SubsetsArg → List String
  | .noneArg => ["train", "test"]
  | .strArg s => [s]
  | .listArg l => l

/-- The message of the line-163 `RuntimeError`. -/
def splitErrMsg : String := "Subset has to set to `train` when split is used"

/-- `DB.load_mus_tracks` (lines 137-220). -/
def load_mus_tracks (db : DB) (fs : FSNode) (subsetsArg : SubsetsArg)
    (split : Option String) : Except PyError (List MultiTrack) :=
  let subsets := normalizeSubsets subsetsArg
  if subsets ≠ ["train"] ∧ split.isSome then
    .error (.runtimeError splitErrMsg)
  else
    exceptFlatMap
      (fun subset =>
        exceptFlatMap (tracksForWalkEntry db fs subset split)
          (osWalk fs (db.data_path ++ [subset, db.instrument])))
      subsets

/-- `DB.__init__` (lines 72-106): `root=None` raises; the `sample_rate`
attribute is assigned only when the argument differs from the
configuration's `sample_rate`; then the catalog is loaded.  The yaml load is
the external config-loader collaborator, so `setup` is taken as the
already-parsed mapping. -/
def initDB (root : Option String) (setup : Setup) (is_wav : Bool)
    (subsetsArg : SubsetsArg) (split : Option String) (sample_rate : Option ℚ)
    (data_path : List String) (instrument : String) (fs : FSNode) :
    Except PyError (DB × List MultiTrack) :=
  match root with
  | none => .error (.runtimeError ("Variable `MUSDB_PATH` has not been set."))
  | some r =>
    let srAttr : Option (Option ℚ) :=
      if sample_rate ≠ setup.sample_rate then some sample_rate else none
    let db : DB :=
      { root := r, setup := setup, is_wav := is_wav, data_path := data_path,
        instrument := instrument, sample_rate := srAttr }
    match load_mus_tracks db fs subsetsArg split with
    | .error e => .error e
    | .ok tracks => .ok (db, tracks)

/-- The `names` argument of `get_track_indices_by_names`: a single string or
a list of strings. -/
inductive NamesArg where
  | strArg : String → NamesArg
  | listArg : List String → NamesArg

/-- Lines 131-132: a single string becomes a one-element list. -/
def normalizeNames : NamesArg → List String
  | .strArg s => [s]
  | .listArg l => l

/-- Python's `list.index`: position of the first occurrence, `ValueError`
when absent. -/
def listIndex : List String → String → Except PyError Nat
  | [], _ => .error .valueError
  | x :: rest, n =>
    if x = n then .ok 0
    else
      match listIndex rest n with
      | .error e => .error e
      | .ok i => .ok (i + 1)

/-- The list comprehension of a fallible body, stopping at the first
exception (left to right), as Python list comprehensions do. -/
def exceptMap {α β : Type} (f : α → Except PyError β) :
    List α → Except PyError (List β)
  | [] => .ok []
  | a :: rest =>
    match f a with
    | .error e => .error e
    | .ok b =>
      match exceptMap f rest with
      | .error e => .error e
      | .ok bs => .ok (b :: bs)

/-- `DB.get_track_indices_by_names` (lines 115-134). -/
def get_track_indices_by_names (tracks : List MultiTrack) (namesArg : NamesArg) :
    Except PyError (List Nat) :=
  exceptMap (listIndex (tracks.map MultiTrack.name)) (normalizeNames namesArg)

/-- The part of the filesystem state that `save_estimates` touches: the set
of existing directories and the written files (path, payload); the payload
type is the opaque audio-buffer type handed to the codec collaborator. -/
structure OutFS (α : Type) where
  dirs : List (List String)
  files : List (List String × α)

/-- `os.makedirs(p)` (no `exist_ok`): raises `FileExistsError` when the leaf
already exists, otherwise creates every missing ancestor and the leaf. -/
def osMakedirs (dirs : List (List String)) (p : List String) :
    Except PyError (List (List String)) :=
  if p ∈ dirs then .error .fileExistsError
  else .ok (dirs ++ p.inits.filter fun q => decide (q ≠ [] ∧ q ∉ dirs))

/-- Writing one file: overwrite every entry at the path if present,
otherwise append. -/
def writeFile {α : Type} (files : List (List String × α)) (p : List String)
    (e : α) : List (List String × α) :=
  if files.any (fun f => decide (f.1 = p)) then
    files.map fun f => if f.1 = p then (p, e) else f
  else files ++ [(p, e)]

/-- `DB.save_estimates` (lines 245-280): compute
`estimates_dir/track.subset/track.name`, create it (with parents) when
absent, then — unless `write_stems` was requested, which is an explicit
no-op — hand each estimate to the codec at `dir/target + '.wav'`. -/
def save_estimates {α : Type} (fs : OutFS α)
    (user_estimates : List (String × α)) (track : MultiTrack)
    (estimates_dir : List String) (write_stems : Bool) :
    Except PyError (OutFS α) :=
  let d := estimates_dir ++ [track.subset, track.name]
  match (if d ∈ fs.dirs then .ok fs.dirs else osMakedirs fs.dirs d :
      Except PyError (List (List String))) with
  | .error e => .error e
  | .ok dirs1 =>
    if write_stems then .ok { dirs := dirs1, files := fs.files }
    else
      .ok { dirs := dirs1,
            files := user_estimates.foldl
              (fun files te => writeFile files (d ++ [te.1 ++ ".wav"]) te.2)
              fs.files }

/-- The gains a single target's declared pair list assigns to the source
named `k`, in declared order. -/
def pairGains (ps : List (String × ℚ)) (k : String) : List ℚ :=
  ps.filterMap fun p => if p.1 = k then some p.2 else none

/-- All gains the whole target specification declares for the source named
`k`, in target order then declared pair order. -/
def declaredGains (spec : List (String × List (String × ℚ))) (k : String) :
    List ℚ :=
  spec.flatMap fun tp => pairGains tp.2 k

/-- Fixture: a configuration with two declared sources, one target mixing
them with gains 1/2 and 1, validation set `{"B"}`. -/
def exSetup : Setup :=
  { sample_rate := some 44100,
    sources := [("vocals", "vocals.wav"), ("drums", "drums.wav")],
    targets := [("t", [("vocals", 1/2), ("drums", 1)])],
    stem_ids := fun _ => 0,
    validation_tracks := ["B"],
    mixture := "mixture.wav" }

/-- Fixture: a container-layout tree `data/test/drums/trackA/mixture.wav`
(one immediate subdirectory of the subset/instrument root, holding a single
container file). -/
def exFS1 : FSNode :=
  .dir [("data", .dir [("test", .dir [("drums", .dir
    [("trackA", .dir [("mixture.wav", .file)])])])])]

/-- Fixture: a `DB` in container mode (`is_wav = false`) over `exFS1`. -/
def exDB1 : DB :=
  { root := "r", setup := exSetup, is_wav := false, data_path := ["data"],
    instrument := "drums", sample_rate := some (some 44100) }

/-- Fixture: a per-file-layout tree with track `A` (variants `0`, `1`) and
track `B` (variant `0`) under `data/train/drums`; `A/0` has the mixture and
the vocals stem, `A/1` only the mixture, `B/0` the mixture and the drums
stem. -/
def exFSW : FSNode :=
  .dir [("data", .dir [("train", .dir [("drums", .dir
    [("A", .dir [("0", .dir [("mixture.wav", .file), ("vocals.wav", .file)]),
                 ("1", .dir [("mixture.wav", .file)])]),
     ("B", .dir [("0", .dir [("mixture.wav", .file),
                             ("drums.wav", .file)])])])])])]

/-- Fixture: a `DB` in per-file mode (`is_wav = true`) over `exFSW`, with
the `sample_rate` attribute assigned (to Python `None`). -/
def exDBW : DB :=
  { root := "r", setup := exSetup, is_wav := true, data_path := ["data"],
    instrument := "drums", sample_rate := some none }

/-- Fixture: the same `DB` as `exDBW` but with the `sample_rate` attribute
never assigned. -/
def exDBW0 : DB :=
  { root := "r", setup := exSetup, is_wav := true, data_path := ["data"],
    instrument := "drums", sample_rate := none }

/-- Fixture: a configuration with one target declared as
`{sourceA: 0.5, sourceB: 1.0}`. -/
def c6Setup : Setup :=
  { sample_rate := some 44100,
    sources := [("sourceA", "a.wav"), ("sourceB", "b.wav")],
    targets := [("acc", [("sourceA", 1/2), ("sourceB", 1)])],
    stem_ids := fun _ => 0,
    validation_tracks := [],
    mixture := "mixture.wav" }

/-- Fixture: a resolved sources mapping holding both sources declared by
`c6Setup`'s target, with their initial gain 1. -/
def c6Sources : List (String × Source) :=
  [("sourceA", { name := "sourceA", path := ["a"], stem_id := 1,
                 sample_rate := none, gain := 1 }),
   ("sourceB", { name := "sourceB", path := ["b"], stem_id := 2,
                 sample_rate := none, gain := 1 })]

/-- Fixture: a configuration whose two targets both reference the single
source `a`, with gains 1/2 and then 1/4. -/
def c7Setup : Setup :=
  { sample_rate := some 44100,
    sources := [("a", "a.wav")],
    targets := [("t1", [("a", 1/2)]), ("t2", [("a", 1/4)])],
    stem_ids := fun _ => 0,
    validation_tracks := [],
    mixture := "mixture.wav" }

/-- Fixture: the single resolved source `a` of `c7Setup`. -/
def c7Src : Source :=
  { name := "a", path := ["a.wav"], stem_id := 0, sample_rate := none,
    gain := 1 }

/-- Fixture: a track record as `get_track_indices_by_names` and
`save_estimates` consume it (only `name` and `subset` matter there). -/
def mkBareTrack (subset name : String) : MultiTrack :=
  { name := name, path := [], subset := subset, is_wav := false,
    stem_id := 0, sample_rate := none, sources := [], targets := [] }

/-- Fixture: a small catalog with a duplicated name, for first-match index
lookup. -/
def exCatalog : List MultiTrack :=
  [mkBareTrack ("test") ("Song A"), mkBareTrack ("test") ("Song B"),
   mkBareTrack ("test") ("Song A")]

theorem exceptFlatMap_nil {α β : Type} (f : α → Except PyError (List β)) :
    exceptFlatMap f [] = .ok [] := rfl

theorem exceptFlatMap_cons {α β : Type} (f : α → Except PyError (List β))
    (a : α) (rest : List α) :
    exceptFlatMap f (a :: rest) =
      match f a with
      | .error e => .error e
      | .ok bs =>
        match exceptFlatMap f rest with
        | .error e => .error e
        | .ok cs => .ok (bs ++ cs) := rfl

theorem exceptFlatMap_congr {α β : Type} {f g : α → Except PyError (List β)}
    {l : List α} (h : ∀ a ∈ l, f a = g a) :
    exceptFlatMap f l = exceptFlatMap g l := by
  induction l with
  | nil => rfl
  | cons a rest ih =>
    rw [exceptFlatMap_cons, exceptFlatMap_cons, h a (by simp),
      ih fun x hx => h x (by simp [hx])]

theorem exceptFlatMap_ok_nil {α β : Type} {f : α → Except PyError (List β)}
    {l : List α} (h : ∀ a ∈ l, f a = .ok []) : exceptFlatMap f l = .ok [] := by
  induction l with
  | nil => rfl
  | cons a rest ih =>
    rw [exceptFlatMap_cons, h a (by simp), ih fun x hx => h x (by simp [hx])]
    rfl

theorem exceptFlatMap_error_mem {α β : Type} {f : α → Except PyError (List β)}
    {l : List α} {e : PyError} (h : exceptFlatMap f l = .error e) :
    ∃ a ∈ l, f a = .error e := by
  induction l with
  | nil => simp [exceptFlatMap_nil] at h
  | cons a rest ih =>
    rw [exceptFlatMap_cons] at h
    cases hfa : f a with
    | error e' =>
      rw [hfa] at h
      cases h
      exact ⟨a, by simp, hfa⟩
    | ok bs =>
      rw [hfa] at h
      cases hrest : exceptFlatMap f rest with
      | error e' =>
        rw [hrest] at h
        cases h
        obtain ⟨x, hx, hfx⟩ := ih hrest
        exact ⟨x, by simp [hx], hfx⟩
      | ok cs => rw [hrest] at h; cases h

theorem exceptFlatMap_ok_forall {α β : Type} {f : α → Except PyError (List β)}
    {l : List α} (P : β → Prop)
    (h : ∀ a ∈ l, ∃ bs, f a = .ok bs ∧ ∀ b ∈ bs, P b) :
    ∃ cs, exceptFlatMap f l = .ok cs ∧ ∀ c ∈ cs, P c := by
  induction l with
  | nil => exact ⟨[], rfl, by simp⟩
  | cons a rest ih =>
    obtain ⟨bs, hbs, hPbs⟩ := h a (by simp)
    obtain ⟨cs, hcs, hPcs⟩ := ih fun x hx => h x (by simp [hx])
    refine ⟨bs ++ cs, ?_, ?_⟩
    · rw [exceptFlatMap_cons, hbs, hcs]
    · intro c hc
      rcases List.mem_append.mp hc with hc | hc
      · exact hPbs c hc
      · exact hPcs c hc

theorem exceptFlatMap_ok_mem {α β : Type} {f : α → Except PyError (List β)}
    {l : List α} {cs : List β} (h : exceptFlatMap f l = .ok cs) :
    ∀ c ∈ cs, ∃ a ∈ l, ∃ bs, f a = .ok bs ∧ c ∈ bs := by
  induction l generalizing cs with
  | nil =>
    rw [exceptFlatMap_nil] at h
    cases h
    simp
  | cons a rest ih =>
    rw [exceptFlatMap_cons] at h
    cases hfa : f a with
    | error e' => rw [hfa] at h; cases h
    | ok bs =>
      rw [hfa] at h
      cases hrest : exceptFlatMap f rest with
      | error e' => rw [hrest] at h; cases h
      | ok cs' =>
        rw [hrest] at h
        cases h
        intro c hc
        rcases List.mem_append.mp hc with hc | hc
        · exact ⟨a, by simp, bs, hfa, hc⟩
        · obtain ⟨x, hx, bs', hbs', hc'⟩ := ih hrest c hc
          exact ⟨x, by simp [hx], bs', hbs', hc'⟩

theorem keepTrack_of_not_train {setup : Setup} {subset : String}
    {split : Option String} (n : String) (h : subset ≠ "train") :
    keepTrack setup subset split n = true := by
  simp [keepTrack, h]

theorem keepTrack_of_none {setup : Setup} {subset : String} (n : String) :
    keepTrack setup subset none n = true := by
  by_cases h : subset = "train" <;> simp [keepTrack, h]

theorem keepTrack_train_iff (setup : Setup) (n : String) :
    keepTrack setup ("train") (some ("train")) n = true ↔
      n ∉ setup.validation_tracks := by
  by_cases h : n ∈ setup.validation_tracks <;> simp [keepTrack, h]

theorem keepTrack_valid_iff (setup : Setup) (n : String) :
    keepTrack setup ("train") (some ("valid")) n = true ↔
      n ∈ setup.validation_tracks := by
  by_cases h : n ∈ setup.validation_tracks <;> simp [keepTrack, h]

theorem buildTrack_some {db : DB} {sr : Option ℚ} (h : db.sample_rate = some sr)
    (fs : FSNode) (subset track_name : String) (track_folder : List String)
    (folder_num : String) :
    buildTrack db fs subset track_name track_folder folder_num =
      .ok (builtTrack db fs subset track_name track_folder folder_num sr) := by
  unfold buildTrack builtTrack
  rw [h]

theorem buildTrack_none {db : DB} (h : db.sample_rate = none) (fs : FSNode)
    (subset track_name : String) (track_folder : List String)
    (folder_num : String) :
    buildTrack db fs subset track_name track_folder folder_num =
      .error .attributeError := by
  unfold buildTrack
  rw [h]

theorem buildTrack_ok_fields {db : DB} {fs : FSNode}
    {subset track_name : String} {track_folder : List String}
    {folder_num : String} {t : MultiTrack}
    (h : buildTrack db fs subset track_name track_folder folder_num = .ok t) :
    t.name = track_name ∧ t.subset = subset := by
  unfold buildTrack at h
  cases hsr : db.sample_rate with
  | none => rw [hsr] at h; cases h
  | some sr => rw [hsr] at h; cases h; exact ⟨rfl, rfl⟩

theorem buildTrack_ne_runtimeError (db : DB) (fs : FSNode)
    (subset track_name : String) (track_folder : List String)
    (folder_num m : String) :
    buildTrack db fs subset track_name track_folder folder_num ≠
      .error (.runtimeError m) := by
  unfold buildTrack
  cases db.sample_rate <;> simp

/-- C1 counterexample: with `is_wav = false` and a container-layout tree
whose subset/instrument root has the single immediate subdirectory
`trackA` holding the single container file `mixture.wav`, indexing produces
the empty catalog instead of one `Track` per immediate subdirectory. -/
theorem c1_counterexample :
    load_mus_tracks exDB1 exFS1 (SubsetsArg.strArg ("test")) none = .ok [] ∧
    osWalk exFS1 ["data", "test", "drums"] =
      [(["data", "test", "drums"], ["trackA"], []),
       (["data", "test", "drums", "trackA"], [], ["mixture.wav"])] ∧
    exDB1.is_wav = false :=
  ⟨rfl, rfl, rfl⟩

/-- C1 (amended): for every indexing call with `is_wav = false` that does
not hit the split configuration error, indexing produces no `Track` at all:
the whole track-building block sits under `if self.is_wav:` with no `else`
branch, so every walk iteration contributes nothing and the catalog is
empty. -/
theorem c1_amended (db : DB) (fs : FSNode) (args : SubsetsArg)
    (split : Option String) (hw : db.is_wav = false)
    (hc : ¬(normalizeSubsets args ≠ ["train"] ∧ split.isSome)) :
    load_mus_tracks db fs args split = .ok [] := by
  unfold load_mus_tracks
  rw [if_neg hc]
  refine exceptFlatMap_ok_nil fun subset _ => ?_
  refine exceptFlatMap_ok_nil fun entry _ => ?_
  simp [tracksForWalkEntry, hw]

/-- C1 (amended) witness: the amended statement evaluated on the concrete
container-layout fixture. -/
theorem c1_amended_witness :
    exDB1.is_wav = false ∧
    ¬(normalizeSubsets (SubsetsArg.strArg ("test")) ≠ ["train"] ∧
        (none : Option String).isSome) ∧
    load_mus_tracks exDB1 exFS1 (SubsetsArg.strArg ("test")) none = .ok [] :=
  ⟨rfl, by decide,
   c1_amended exDB1 exFS1 (SubsetsArg.strArg ("test")) none rfl (by decide)⟩

/-- C2: the split filter keeps every name when the subset is not `train` or
`split` is `None`; with `split = "train"` it keeps a name iff it is not a
validation track; with `split = "valid"` iff it is one; and every track in a
successfully loaded catalog bears a name the filter kept (the filter runs
before any `Track` is constructed for the name). -/
theorem c2_split_filter (setup : Setup) (subset : String)
    (split : Option String) (n : String) :
    ((subset ≠ "train" ∨ split = none) → keepTrack setup subset split n = true) ∧
    (split = some "train" →
      (keepTrack setup ("train") split n = true ↔
        n ∉ setup.validation_tracks)) ∧
    (split = some "valid" →
      (keepTrack setup ("train") split n = true ↔
        n ∈ setup.validation_tracks)) ∧
    (∀ (db : DB) (fs : FSNode) (args : SubsetsArg) (l : List MultiTrack),
      load_mus_tracks db fs args split = .ok l →
      ∀ t ∈ l, keepTrack db.setup t.subset split t.name = true) := by
  refine ⟨?_, ?_, ?_, ?_⟩
  · rintro (h | h)
    · exact keepTrack_of_not_train n h
    · rw [h]; exact keepTrack_of_none n
  · rintro rfl; exact keepTrack_train_iff setup n
  · rintro rfl; exact keepTrack_valid_iff setup n
  · intro db fs args l hl t ht
    unfold load_mus_tracks at hl
    by_cases hc : normalizeSubsets args ≠ ["train"] ∧ split.isSome
    · rw [if_pos hc] at hl; cases hl
    · rw [if_neg hc] at hl
      obtain ⟨s, _, bs, hbs, htb⟩ := exceptFlatMap_ok_mem hl t ht
      obtain ⟨entry, _, bs2, hbs2, htb2⟩ := exceptFlatMap_ok_mem hbs t htb
      unfold tracksForWalkEntry at hbs2
      by_cases hw : db.is_wav = true
      · rw [if_pos hw] at hbs2
        obtain ⟨nm, _, bs3, hbs3, htb3⟩ := exceptFlatMap_ok_mem hbs2 t htb2
        by_cases hk : keepTrack db.setup s split nm = true
        · rw [if_pos hk] at hbs3
          obtain ⟨e2, _, bs4, hbs4, htb4⟩ := exceptFlatMap_ok_mem hbs3 t htb3
          obtain ⟨num, _, bs5, hbs5, htb5⟩ := exceptFlatMap_ok_mem hbs4 t htb4
          cases hbt : buildTrack db fs s nm
              (db.data_path ++ [s, db.instrument, nm]) num with
          | error e => rw [hbt] at hbs5; cases hbs5
          | ok t' =>
            rw [hbt] at hbs5
            cases hbs5
            have htt : t = t' := by simpa using htb5
            obtain ⟨hname, hsub⟩ := buildTrack_ok_fields hbt
            rw [htt, hname, hsub]
            exact hk
        · rw [if_neg hk] at hbs3; cases hbs3; simp at htb3
      · rw [if_neg hw] at hbs2; cases hbs2; simp at htb2

/-- C2 witness: the three filter clauses evaluated on the concrete
configuration (validation set `{"B"}`). -/
theorem c2_split_filter_witness :
    keepTrack exSetup ("test") none ("A") = true ∧
    (keepTrack exSetup ("train") (some ("train")) ("B") = true ↔
      ("B" : String) ∉ exSetup.validation_tracks) ∧
    (keepTrack exSetup ("train") (some ("valid")) ("B") = true ↔
      ("B" : String) ∈ exSetup.validation_tracks) :=
  ⟨(c2_split_filter exSetup ("test") none ("A")).1 (Or.inr rfl),
   (c2_split_filter exSetup ("train") (some ("train")) ("B")).2.1 rfl,
   (c2_split_filter exSetup ("train") (some ("valid")) ("B")).2.2.1 rfl⟩

/-- C3: `load_mus_tracks` raises the line-163 `RuntimeError` exactly when
`split` is given while the normalized subsets are not `["train"]`; the
condition does not depend on the filesystem (the check precedes any
traversal). -/
theorem c3_config_error_iff (db : DB) (fs : FSNode) (args : SubsetsArg)
    (split : Option String) :
    load_mus_tracks db fs args split = .error (.runtimeError splitErrMsg) ↔
      split.isSome = true ∧ normalizeSubsets args ≠ ["train"] := by
  constructor
  · intro h
    by_cases hc : normalizeSubsets args ≠ ["train"] ∧ split.isSome
    · exact ⟨hc.2, hc.1⟩
    · exfalso
      unfold load_mus_tracks at h
      rw [if_neg hc] at h
      obtain ⟨s, _, hs⟩ := exceptFlatMap_error_mem h
      obtain ⟨entry, _, hentry⟩ := exceptFlatMap_error_mem hs
      unfold tracksForWalkEntry at hentry
      by_cases hw : db.is_wav = true
      · rw [if_pos hw] at hentry
        obtain ⟨nm, _, hnm⟩ := exceptFlatMap_error_mem hentry
        by_cases hk : keepTrack db.setup s split nm = true
        · rw [if_pos hk] at hnm
          obtain ⟨e2, _, he2⟩ := exceptFlatMap_error_mem hnm
          obtain ⟨num, _, hnum⟩ := exceptFlatMap_error_mem he2
          cases hbt : buildTrack db fs s nm
              (db.data_path ++ [s, db.instrument, nm]) num with
          | error e =>
            rw [hbt] at hnum
            cases hnum
            exact buildTrack_ne_runtimeError db fs s nm
              (db.data_path ++ [s, db.instrument, nm]) num _ hbt
          | ok t => rw [hbt] at hnum; cases hnum
        · rw [if_neg hk] at hnm; cases hnm
      · rw [if_neg hw] at hentry; cases hentry
  · intro h
    unfold load_mus_tracks
    rw [if_pos ⟨h.2, h.1⟩]

/-- C3 witness: the error raised on a concrete call with both subsets
requested together with a split. -/
theorem c3_config_error_witness :
    load_mus_tracks exDB1 exFS1 SubsetsArg.noneArg (some ("train")) =
      .error (.runtimeError splitErrMsg) :=
  (c3_config_error_iff exDB1 exFS1 SubsetsArg.noneArg (some ("train"))).mpr
    (by decide)

theorem tracksForName_ok {db : DB} {sr : Option ℚ}
    (h : db.sample_rate = some sr) (fs : FSNode) (subset track_name : String)
    (track_folder : List String) :
    ∃ l, tracksForName db fs subset track_name track_folder = .ok l ∧
      ∀ t ∈ l, t.name = track_name ∧ t.subset = subset := by
  unfold tracksForName
  refine exceptFlatMap_ok_forall _ fun entry _ => ?_
  refine exceptFlatMap_ok_forall _ fun num _ => ?_
  rw [buildTrack_some h]
  refine ⟨[builtTrack db fs subset track_name track_folder num sr], rfl, ?_⟩
  intro t ht
  rw [List.mem_singleton] at ht
  rw [ht]
  exact ⟨rfl, rfl⟩

theorem flatMap_filter_names (Q : String → Bool)
    (g : String → Except PyError (List MultiTrack))
    (hg : ∀ nm, ∃ l, g nm = .ok l ∧ ∀ t ∈ l, t.name = nm)
    (names : List String) :
    ∃ lf lg,
      exceptFlatMap (fun nm => if Q nm then g nm else .ok []) names = .ok lf ∧
      exceptFlatMap g names = .ok lg ∧
      ∀ n, n ∈ lf.map MultiTrack.name ↔
        Q n = true ∧ n ∈ lg.map MultiTrack.name := by
  induction names with
  | nil => exact ⟨[], [], rfl, rfl, by simp⟩
  | cons nm rest ih =>
    obtain ⟨l, hl, hlnames⟩ := hg nm
    obtain ⟨lf, lg, hlf, hlg, hrel⟩ := ih
    have hmem : ∀ n, n ∈ l.map MultiTrack.name → n = nm := by
      intro n hn
      obtain ⟨t, ht, he⟩ := List.mem_map.mp hn
      rw [← he]
      exact hlnames t ht
    by_cases hq : Q nm = true
    · refine ⟨l ++ lf, l ++ lg, ?_, ?_, ?_⟩
      · rw [exceptFlatMap_cons, if_pos hq, hl, hlf]
      · rw [exceptFlatMap_cons, hl, hlg]
      · intro n
        simp only [List.map_append, List.mem_append]
        constructor
        · rintro (hn | hn)
          · exact ⟨(hmem n hn) ▸ hq, Or.inl hn⟩
          · exact ⟨((hrel n).mp hn).1, Or.inr ((hrel n).mp hn).2⟩
        · rintro ⟨hQ, hn | hn⟩
          · exact Or.inl hn
          · exact Or.inr ((hrel n).mpr ⟨hQ, hn⟩)
    · refine ⟨lf, l ++ lg, ?_, ?_, ?_⟩
      · rw [exceptFlatMap_cons, if_neg hq, hlf]; rfl
      · rw [exceptFlatMap_cons, hl, hlg]
      · intro n
        simp only [List.map_append, List.mem_append]
        rw [hrel n]
        constructor
        · rintro ⟨hQ, hn⟩
          exact ⟨hQ, Or.inr hn⟩
        · rintro ⟨hQ, hn | hn⟩
          · exact absurd ((hmem n hn) ▸ hQ) hq
          · exact ⟨hQ, hn⟩

theorem exceptFlatMap_names_rel {α : Type} (Q : String → Prop) (l : List α)
    {f g : α → Except PyError (List MultiTrack)}
    (h : ∀ a ∈ l, ∃ lf lg, f a = .ok lf ∧ g a = .ok lg ∧
      ∀ n, n ∈ lf.map MultiTrack.name ↔ Q n ∧ n ∈ lg.map MultiTrack.name) :
    ∃ Lf Lg, exceptFlatMap f l = .ok Lf ∧ exceptFlatMap g l = .ok Lg ∧
      ∀ n, n ∈ Lf.map MultiTrack.name ↔ Q n ∧ n ∈ Lg.map MultiTrack.name := by
  induction l with
  | nil => exact ⟨[], [], rfl, rfl, by simp⟩
  | cons a rest ih =>
    obtain ⟨lf, lg, hf, hg2, hrel⟩ := h a (by simp)
    obtain ⟨Lf, Lg, hLf, hLg, hRel⟩ := ih fun x hx => h x (by simp [hx])
    refine ⟨lf ++ Lf, lg ++ Lg, ?_, ?_, ?_⟩
    · rw [exceptFlatMap_cons, hf, hLf]
    · rw [exceptFlatMap_cons, hg2, hLg]
    · intro n
      simp only [List.map_append, List.mem_append, hrel n, hRel n]
      tauto

theorem tracksForWalkEntry_rel {db : DB} {sr : Option ℚ}
    (h : db.sample_rate = some sr) (fs : FSNode) (subset : String)
    (split : Option String) (entry : WalkEntry) :
    ∃ lf lg, tracksForWalkEntry db fs subset split entry = .ok lf ∧
      tracksForWalkEntry db fs subset none entry = .ok lg ∧
      ∀ n, n ∈ lf.map MultiTrack.name ↔
        keepTrack db.setup subset split n = true ∧
          n ∈ lg.map MultiTrack.name := by
  unfold tracksForWalkEntry
  by_cases hw : db.is_wav = true
  · rw [if_pos hw, if_pos hw]
    have hgc : exceptFlatMap (fun nm =>
        if keepTrack db.setup subset none nm then
          tracksForName db fs subset nm
            (db.data_path ++ [subset, db.instrument, nm])
        else .ok []) (pySorted entry.2.1) =
        exceptFlatMap (fun nm => tracksForName db fs subset nm
          (db.data_path ++ [subset, db.instrument, nm]))
          (pySorted entry.2.1) :=
      exceptFlatMap_congr fun nm _ => by rw [if_pos (keepTrack_of_none nm)]
    rw [hgc]
    exact flatMap_filter_names (keepTrack db.setup subset split) _
      (fun nm => (tracksForName_ok h fs subset nm _).imp fun l hl =>
        ⟨hl.1, fun t ht => (hl.2 t ht).1⟩)
      (pySorted entry.2.1)
  · rw [if_neg hw, if_neg hw]
    exact ⟨[], [], rfl, rfl, by simp⟩

/-- C4: with the `sample_rate` attribute assigned, the track-name sets of
the `split="train"` and `split="valid"` catalogs over subset `train` are
disjoint and their union is the track-name set of the unsplit `train`
catalog. -/
theorem c4_split_partition (db : DB) (fs : FSNode) {sr : Option ℚ}
    (h : db.sample_rate = some sr) :
    ∃ lt lv la,
      load_mus_tracks db fs (SubsetsArg.strArg ("train")) (some ("train")) =
        .ok lt ∧
      load_mus_tracks db fs (SubsetsArg.strArg ("train")) (some ("valid")) =
        .ok lv ∧
      load_mus_tracks db fs (SubsetsArg.strArg ("train")) none = .ok la ∧
      (∀ n, (n ∈ lt.map MultiTrack.name ∨ n ∈ lv.map MultiTrack.name) ↔
        n ∈ la.map MultiTrack.name) ∧
      (∀ n, ¬(n ∈ lt.map MultiTrack.name ∧ n ∈ lv.map MultiTrack.name)) := by
  have hents := osWalk fs (db.data_path ++ ["train", db.instrument])
  obtain ⟨Lt, Lgt, hLt, hLgt, hRt⟩ :=
    exceptFlatMap_names_rel (fun n => keepTrack db.setup ("train")
        (some ("train")) n = true)
      (osWalk fs (db.data_path ++ ["train", db.instrument]))
      fun entry _ => tracksForWalkEntry_rel h fs ("train") (some ("train")) entry
  obtain ⟨Lv, Lgv, hLv, hLgv, hRv⟩ :=
    exceptFlatMap_names_rel (fun n => keepTrack db.setup ("train")
        (some ("valid")) n = true)
      (osWalk fs (db.data_path ++ ["train", db.instrument]))
      fun entry _ => tracksForWalkEntry_rel h fs ("train") (some ("valid")) entry
  have hgg : Lgv = Lgt := by
    rw [hLgt] at hLgv
    exact (Except.ok.inj hLgv).symm
  subst hgg
  refine ⟨Lt ++ [], Lv ++ [], Lgv ++ [], ?_, ?_, ?_, ?_, ?_⟩
  · unfold load_mus_tracks
    rw [if_neg (by decide)]
    rw [show normalizeSubsets (SubsetsArg.strArg ("train")) = ["train"] from rfl,
      exceptFlatMap_cons, hLt, exceptFlatMap_nil]
  · unfold load_mus_tracks
    rw [if_neg (by decide)]
    rw [show normalizeSubsets (SubsetsArg.strArg ("train")) = ["train"] from rfl,
      exceptFlatMap_cons, hLv, exceptFlatMap_nil]
  · unfold load_mus_tracks
    rw [if_neg (by decide)]
    rw [show normalizeSubsets (SubsetsArg.strArg ("train")) = ["train"] from rfl,
      exceptFlatMap_cons, hLgv, exceptFlatMap_nil]
  · intro n
    simp only [List.append_nil]
    rw [hRt n, hRv n, keepTrack_train_iff, keepTrack_valid_iff]
    by_cases hv : n ∈ db.setup.validation_tracks <;> tauto
  · intro n
    simp only [List.append_nil]
    rw [hRt n, hRv n, keepTrack_train_iff, keepTrack_valid_iff]
    tauto

/-- C4 witness: the partition on the concrete per-file fixture, where track
`A` is a training track and track `B` is the validation track. -/
theorem c4_split_partition_witness :
    exDBW.sample_rate = some none ∧
    (∃ lt lv la,
      load_mus_tracks exDBW exFSW (SubsetsArg.strArg ("train"))
        (some ("train")) = .ok lt ∧
      load_mus_tracks exDBW exFSW (SubsetsArg.strArg ("train"))
        (some ("valid")) = .ok lv ∧
      load_mus_tracks exDBW exFSW (SubsetsArg.strArg ("train")) none =
        .ok la ∧
      (∀ n, (n ∈ lt.map MultiTrack.name ∨ n ∈ lv.map MultiTrack.name) ↔
        n ∈ la.map MultiTrack.name) ∧
      (∀ n, ¬(n ∈ lt.map MultiTrack.name ∧ n ∈ lv.map MultiTrack.name))) ∧
    (∃ lt, load_mus_tracks exDBW exFSW (SubsetsArg.strArg ("train"))
        (some ("train")) = .ok lt ∧ lt.map MultiTrack.name = ["A", "A"]) :=
  ⟨rfl, c4_split_partition exDBW exFSW rfl, ⟨_, rfl, rfl⟩⟩

theorem alookup_mem {κ β : Type} [DecidableEq κ] {l : List (κ × β)} {k : κ}
    {v : β} (h : alookup l k = some v) : (k, v) ∈ l := by
  induction l with
  | nil => cases h
  | cons e rest ih =>
    unfold alookup at h
    by_cases he : e.1 = k
    · rw [if_pos he] at h
      cases h
      subst he
      simp
    · rw [if_neg he] at h
      simp [ih h]

theorem alookup_cons {κ β : Type} [DecidableEq κ] (e : κ × β)
    (l : List (κ × β)) (k : κ) :
    alookup (e :: l) k = if e.1 = k then some e.2 else alookup l k := rfl

theorem alookup_none_of_not_mem_keys {κ β : Type} [DecidableEq κ]
    {l : List (κ × β)} {k : κ} (h : k ∉ l.map Prod.fst) :
    alookup l k = none := by
  induction l with
  | nil => rfl
  | cons e rest ih =>
    simp only [List.map_cons, List.mem_cons, not_or] at h
    rw [alookup_cons, if_neg fun he => h.1 he.symm]
    exact ih h.2

theorem alookup_map_values {β γ : Type} (l : List (String × β))
    (f : String → β → γ) (k : String) :
    alookup (l.map fun e => (e.1, f e.1 e.2)) k = (alookup l k).map (f k) := by
  induction l with
  | nil => rfl
  | cons e rest ih =>
    by_cases he : e.1 = k
    · subst he
      simp [alookup]
    · simp [alookup, he, ih]

theorem setGain_cons (e : String × Source) (rest : List (String × Source))
    (nm : String) (g : ℚ) :
    setGain (e :: rest) nm g =
      (if e.1 = nm then (e.1, { e.2 with gain := g }) else e) ::
        setGain rest nm g := rfl

theorem alookup_setGain (sources : List (String × Source)) (nm : String)
    (g : ℚ) (k : String) :
    alookup (setGain sources nm g) k =
      (alookup sources k).map fun s =>
        if k = nm then { s with gain := g } else s := by
  induction sources with
  | nil => rfl
  | cons e rest ih =>
    rw [setGain_cons]
    by_cases hnm : e.1 = nm
    · rw [if_pos hnm, alookup_cons, alookup_cons]
      by_cases hk : e.1 = k
      · have hknm : k = nm := by rw [← hk, hnm]
        rw [if_pos hk, if_pos hk]
        simp [hknm]
      · rw [if_neg hk, if_neg hk, ih]
    · rw [if_neg hnm, alookup_cons, alookup_cons]
      by_cases hk : e.1 = k
      · have hknm : ¬k = nm := fun h => hnm (hk.trans h)
        rw [if_pos hk, if_pos hk]
        simp [hknm]
      · rw [if_neg hk, if_neg hk, ih]

theorem pairGains_cons (p : String × ℚ) (ps : List (String × ℚ)) (k : String) :
    pairGains (p :: ps) k =
      if p.1 = k then p.2 :: pairGains ps k else pairGains ps k := by
  by_cases h : p.1 = k <;> simp [pairGains, List.filterMap_cons, h]

theorem declaredGains_cons (tp : String × List (String × ℚ))
    (rest : List (String × List (String × ℚ))) (k : String) :
    declaredGains (tp :: rest) k = pairGains tp.2 k ++ declaredGains rest k := by
  simp [declaredGains]

theorem getLastD_cons (a d : ℚ) (l : List ℚ) :
    (a :: l).getLast?.getD d = l.getLast?.getD a := by
  induction l generalizing a d with
  | nil => rfl
  | cons b l' ih => rw [List.getLast?_cons_cons, ih b d, ih b a]

theorem getLastD_append (l1 l2 : List ℚ) (d : ℚ) :
    (l1 ++ l2).getLast?.getD d = l2.getLast?.getD (l1.getLast?.getD d) := by
  induction l1 generalizing d with
  | nil => rfl
  | cons a l1' ih =>
    rw [List.cons_append, getLastD_cons, ih, getLastD_cons]

theorem composePairs_fst_alookup (ps : List (String × ℚ))
    (sources : List (String × Source)) (k : String) :
    alookup (composePairs sources ps).1 k =
      (alookup sources k).map fun s =>
        { s with gain := (pairGains ps k).getLast?.getD s.gain } := by
  induction ps generalizing sources with
  | nil =>
    cases h : alookup sources k <;>
      simp [composePairs, pairGains, h]
  | cons p rest ih =>
    by_cases hpres : (alookup sources p.1).isSome = true
    · rw [show composePairs sources (p :: rest) =
          ((composePairs (setGain sources p.1 p.2) rest).1,
            p.1 :: (composePairs (setGain sources p.1 p.2) rest).2) by
        simp [composePairs, hpres]]
      rw [ih (setGain sources p.1 p.2), alookup_setGain, pairGains_cons]
      by_cases hk : p.1 = k
      · subst hk
        cases hs : alookup sources p.1 with
        | none => rw [hs] at hpres; cases hpres
        | some s => simp [hs, getLastD_cons]
      · rw [if_neg hk]
        cases hs : alookup sources k with
        | none => rfl
        | some s =>
          have hknm : ¬k = p.1 := fun h => hk h.symm
          simp [hs, hknm]
    · rw [show composePairs sources (p :: rest) = composePairs sources rest by
        simp [composePairs, hpres]]
      rw [ih sources, pairGains_cons]
      by_cases hk : p.1 = k
      · subst hk
        rw [if_pos rfl]
        cases hx : alookup sources p.1 with
        | none => rfl
        | some s => rw [hx] at hpres; simp at hpres
      · rw [if_neg hk]

theorem createTargetsAux_fst_alookup
    (spec : List (String × List (String × ℚ)))
    (sources : List (String × Source)) (k : String) :
    alookup (createTargetsAux sources spec).1 k =
      (alookup sources k).map fun s =>
        { s with gain := (declaredGains spec k).getLast?.getD s.gain } := by
  induction spec generalizing sources with
  | nil =>
    cases h : alookup sources k <;> simp [createTargetsAux, declaredGains, h]
  | cons tp rest ih =>
    have hfst : (createTargetsAux sources (tp :: rest)).1 =
        (createTargetsAux (composePairs sources tp.2).1 rest).1 := by
      by_cases he : (composePairs sources tp.2).2.isEmpty <;>
        simp [createTargetsAux, he]
    rw [hfst, ih, composePairs_fst_alookup, declaredGains_cons]
    cases hs : alookup sources k with
    | none => rfl
    | some s =>
      simp only [Option.map_some']
      rw [getLastD_append]

/-- C7: after composing all targets, a source present in the track's sources
mapping carries the gain declared by the last specification pair (in target
order, then pair order) that references it; with no reference its gain is
unchanged. -/
theorem c7_last_gain_wins (setup : Setup) (sources : List (String × Source))
    (nm : String) (s : Source) (h : alookup sources nm = some s) :
    alookup (create_targets setup sources).1 nm =
      some { s with gain :=
        (declaredGains setup.targets nm).getLast?.getD s.gain } := by
  unfold create_targets
  rw [createTargetsAux_fst_alookup, h]
  rfl

theorem composePairs_cons_pos {sources : List (String × Source)}
    {p : String × ℚ} (hpres : (alookup sources p.1).isSome = true)
    (rest : List (String × ℚ)) :
    composePairs sources (p :: rest) =
      ((composePairs (setGain sources p.1 p.2) rest).1,
        p.1 :: (composePairs (setGain sources p.1 p.2) rest).2) := by
  simp [composePairs, hpres]

theorem composePairs_cons_neg {sources : List (String × Source)}
    {p : String × ℚ} (hpres : ¬(alookup sources p.1).isSome = true)
    (rest : List (String × ℚ)) :
    composePairs sources (p :: rest) = composePairs sources rest := by
  simp [composePairs, hpres]

theorem composePairs_fst_isSome (ps : List (String × ℚ))
    (sources : List (String × Source)) (k : String) :
    (alookup (composePairs sources ps).1 k).isSome =
      (alookup sources k).isSome := by
  rw [composePairs_fst_alookup]
  cases alookup sources k <;> rfl

theorem composePairs_snd_pres (ps : List (String × ℚ)) :
    ∀ (sources : List (String × Source)) (nm : String),
      nm ∈ (composePairs sources ps).2 →
      (alookup sources nm).isSome = true := by
  induction ps with
  | nil => intro sources nm h; simp [composePairs] at h
  | cons p rest ih =>
    intro sources nm h
    by_cases hpres : (alookup sources p.1).isSome = true
    · rw [composePairs_cons_pos hpres] at h
      rcases List.mem_cons.mp h with heq | h'
      · rw [heq]; exact hpres
      · have := ih (setGain sources p.1 p.2) nm h'
        rwa [alookup_setGain, Option.isSome_map'] at this
    · rw [composePairs_cons_neg hpres] at h
      exact ih sources nm h

theorem composePairs_snd_nil_iff (ps : List (String × ℚ))
    (sources : List (String × Source)) :
    (composePairs sources ps).2 = [] ↔
      ∀ p ∈ ps, (alookup sources p.1).isSome = false := by
  induction ps with
  | nil => simp [composePairs]
  | cons p rest ih =>
    by_cases hpres : (alookup sources p.1).isSome = true
    · rw [composePairs_cons_pos hpres]
      refine ⟨fun h => absurd h (List.cons_ne_nil _ _), fun hall => ?_⟩
      exact absurd hpres (by simp [hall p (by simp)])
    · rw [composePairs_cons_neg hpres]
      rw [ih]
      have hfalse : (alookup sources p.1).isSome = false := by simpa using hpres
      constructor
      · intro hall q hq
        rcases List.mem_cons.mp hq with heq | hq'
        · rw [heq]; exact hfalse
        · exact hall q hq'
      · intro hall q hq
        exact hall q (by simp [hq])

theorem createTargetsAux_cons (sources : List (String × Source))
    (tp : String × List (String × ℚ))
    (rest : List (String × List (String × ℚ))) :
    createTargetsAux sources (tp :: rest) =
      ((createTargetsAux (composePairs sources tp.2).1 rest).1,
        if (composePairs sources tp.2).2.isEmpty then
          (createTargetsAux (composePairs sources tp.2).1 rest).2
        else (tp.1, (composePairs sources tp.2).2) ::
          (createTargetsAux (composePairs sources tp.2).1 rest).2) := by
  by_cases he : (composePairs sources tp.2).2.isEmpty <;>
    simp [createTargetsAux, he]

theorem createTargetsAux_fst_isSome (spec : List (String × List (String × ℚ)))
    (sources : List (String × Source)) (k : String) :
    (alookup (createTargetsAux sources spec).1 k).isSome =
      (alookup sources k).isSome := by
  rw [createTargetsAux_fst_alookup]
  cases alookup sources k <;> rfl

theorem createTargetsAux_snd_mem (spec : List (String × List (String × ℚ))) :
    ∀ (sources : List (String × Source)) (tn : String) (ns : List String),
      (tn, ns) ∈ (createTargetsAux sources spec).2 →
      ns ≠ [] ∧ tn ∈ spec.map Prod.fst ∧
        ∀ nm ∈ ns, (alookup sources nm).isSome = true := by
  induction spec with
  | nil => intro sources tn ns h; simp [createTargetsAux] at h
  | cons tp rest ih =>
    intro sources tn ns h
    rw [createTargetsAux_cons] at h
    by_cases he : (composePairs sources tp.2).2.isEmpty
    · rw [if_pos he] at h
      obtain ⟨hne, hkeys, hpres⟩ := ih (composePairs sources tp.2).1 tn ns h
      refine ⟨hne, by simp [hkeys], fun nm hnm => ?_⟩
      have := hpres nm hnm
      rwa [composePairs_fst_isSome] at this
    · rw [if_neg he] at h
      rcases List.mem_cons.mp h with heq | h'
      · obtain ⟨htn, hns⟩ := Prod.mk.injEq tn ns tp.1 (composePairs sources tp.2).2
          |>.mp heq
        refine ⟨?_, by simp [htn], ?_⟩
        · intro hnil
          exact he (List.isEmpty_iff.mpr (hns ▸ hnil))
        · intro nm hnm
          exact composePairs_snd_pres tp.2 sources nm (hns ▸ hnm)
      · obtain ⟨hne, hkeys, hpres⟩ := ih _ tn ns h'
        refine ⟨hne, by simp [hkeys], fun nm hnm => ?_⟩
        have := hpres nm hnm
        rwa [composePairs_fst_isSome] at this

theorem create_targets_fst (setup : Setup) (sources : List (String × Source)) :
    (create_targets setup sources).1 =
      (createTargetsAux sources setup.targets).1 := rfl

theorem create_targets_snd (setup : Setup) (sources : List (String × Source)) :
    (create_targets setup sources).2 =
      (createTargetsAux sources setup.targets).2.map fun t =>
        (t.1, materializeTarget (createTargetsAux sources setup.targets).1
          t.1 t.2) := rfl

theorem create_targets_lookup_some (setup : Setup)
    (sources : List (String × Source))
    (hco : ∀ k s, alookup sources k = some s → s.name = k)
    (tname : String) (T : Target)
    (h : alookup (create_targets setup sources).2 tname = some T) :
    T.sources ≠ [] ∧ ∀ s ∈ T.sources, (alookup sources s.name).isSome = true := by
  rw [create_targets_snd, alookup_map_values] at h
  cases hns : alookup (createTargetsAux sources setup.targets).2 tname with
  | none => rw [hns] at h; cases h
  | some ns =>
    rw [hns] at h
    simp only [Option.map_some'] at h
    obtain rfl : materializeTarget (createTargetsAux sources setup.targets).1
        tname ns = T := Option.some.inj h
    obtain ⟨hne, _, hpres⟩ :=
      createTargetsAux_snd_mem setup.targets sources tname ns (alookup_mem hns)
    constructor
    · cases ns with
      | nil => exact absurd rfl hne
      | cons nm0 ns' =>
        have h0 : (alookup (createTargetsAux sources setup.targets).1
            nm0).isSome = true := by
          rw [createTargetsAux_fst_isSome]
          exact hpres nm0 (by simp)
        obtain ⟨s0, hs0⟩ := Option.isSome_iff_exists.mp h0
        simp [materializeTarget, List.filterMap_cons, hs0]
    · intro s hs
      simp only [materializeTarget] at hs
      obtain ⟨nm, hnm, hsome⟩ := List.mem_filterMap.mp hs
      rw [createTargetsAux_fst_alookup] at hsome
      cases hsrc : alookup sources nm with
      | none => rw [hsrc] at hsome; cases hsome
      | some s0 =>
        rw [hsrc] at hsome
        simp only [Option.map_some'] at hsome
        have hn0 : s0.name = nm := hco nm s0 hsrc
        have hs' := Option.some.inj hsome
        have hname : s.name = nm := by rw [← hs']; exact hn0
        rw [hname, hsrc]
        rfl

theorem createTargetsAux_alookup_none
    (spec : List (String × List (String × ℚ))) :
    ∀ (sources : List (String × Source)), (spec.map Prod.fst).Nodup →
    ∀ (tname : String) (pairs : List (String × ℚ)), (tname, pairs) ∈ spec →
    (∀ p ∈ pairs, alookup sources p.1 = none) →
    alookup (createTargetsAux sources spec).2 tname = none := by
  induction spec with
  | nil => intro sources _ tn ps h; cases h
  | cons tp rest ih =>
    intro sources hnd tn ps hmem habs
    rw [List.map_cons, List.nodup_cons] at hnd
    rw [createTargetsAux_cons]
    rcases List.mem_cons.mp hmem with heq | hmem'
    · have h1 : tp.1 = tn := by rw [← heq]
      have h2 : tp.2 = ps := by rw [← heq]
      have hempty : (composePairs sources tp.2).2.isEmpty = true := by
        rw [List.isEmpty_iff, composePairs_snd_nil_iff]
        intro p hp
        rw [habs p (h2 ▸ hp)]
        rfl
      rw [if_pos hempty]
      cases hl : alookup
          (createTargetsAux (composePairs sources tp.2).1 rest).2 tn with
      | none => rfl
      | some ns =>
        obtain ⟨_, hkeys, _⟩ :=
          createTargetsAux_snd_mem rest _ tn ns (alookup_mem hl)
        exact absurd (h1 ▸ hkeys) hnd.1
    · have hne : tp.1 ≠ tn := fun h =>
        hnd.1 (h ▸ List.mem_map_of_mem Prod.fst hmem')
      have habs' : ∀ p ∈ ps, alookup (composePairs sources tp.2).1 p.1 = none :=
        fun p hp => by rw [composePairs_fst_alookup, habs p hp]; rfl
      by_cases he : (composePairs sources tp.2).2.isEmpty
      · rw [if_pos he]
        exact ih _ hnd.2 tn ps hmem' habs'
      · rw [if_neg he, alookup_cons, if_neg hne]
        exact ih _ hnd.2 tn ps hmem' habs'

theorem buildSources_eq (db : DB) (fs : FSNode) (track_folder : List String)
    (folder_num : String) (sr : Option ℚ) :
    buildSources db fs track_folder folder_num sr =
      db.setup.sources.filterMap fun sf =>
        if pathExists fs (track_folder ++ [folder_num, sf.2]) then
          some (sf.1,
            { name := sf.1, path := track_folder ++ [folder_num, sf.2],
              stem_id := db.setup.stem_ids sf.1, sample_rate := sr,
              gain := 1 })
        else none := rfl

theorem filterMap_guard_cons_pos {β : Type} (P : String × String → Bool)
    (mk : String × String → β) (sf : String × String)
    (rest : List (String × String)) (hp : P sf = true) :
    ((sf :: rest).filterMap fun e => if P e then some (e.1, mk e) else none) =
      (sf.1, mk sf) ::
        rest.filterMap fun e => if P e then some (e.1, mk e) else none := by
  rw [List.filterMap_cons]
  simp [hp]

theorem filterMap_guard_cons_neg {β : Type} (P : String × String → Bool)
    (mk : String × String → β) (sf : String × String)
    (rest : List (String × String)) (hp : ¬P sf = true) :
    ((sf :: rest).filterMap fun e => if P e then some (e.1, mk e) else none) =
      rest.filterMap fun e => if P e then some (e.1, mk e) else none := by
  rw [List.filterMap_cons]
  simp [hp]

theorem alookup_filterMap_guard_none {β : Type} (P : String × String → Bool)
    (mk : String × String → β) (ss : List (String × String)) (k : String)
    (h : k ∉ ss.map Prod.fst) :
    alookup (ss.filterMap fun sf =>
      if P sf then some (sf.1, mk sf) else none) k = none := by
  induction ss with
  | nil => rfl
  | cons sf rest ih =>
    simp only [List.map_cons, List.mem_cons, not_or] at h
    by_cases hp : P sf = true
    · rw [filterMap_guard_cons_pos P mk sf rest hp,
        alookup_cons, if_neg fun he => h.1 he.symm]
      exact ih h.2
    · rw [filterMap_guard_cons_neg P mk sf rest hp]
      exact ih h.2

theorem alookup_filterMap_guard {β : Type} (P : String × String → Bool)
    (mk : String × String → β) (ss : List (String × String)) :
    (ss.map Prod.fst).Nodup → ∀ src rel, (src, rel) ∈ ss →
    (alookup (ss.filterMap fun sf =>
      if P sf then some (sf.1, mk sf) else none) src).isSome = P (src, rel) := by
  induction ss with
  | nil => intro _ src rel h; cases h
  | cons sf rest ih =>
    intro hnd src rel hmem
    rw [List.map_cons, List.nodup_cons] at hnd
    rcases List.mem_cons.mp hmem with heq | hmem'
    · have h1 : sf.1 = src := by rw [← heq]
      have h2 : sf.2 = rel := by rw [← heq]
      by_cases hp : P sf = true
      · rw [filterMap_guard_cons_pos P mk sf rest hp,
          alookup_cons, if_pos h1]
        rw [← heq] at hp
        simp [hp]
      · rw [filterMap_guard_cons_neg P mk sf rest hp]
        rw [alookup_filterMap_guard_none P mk rest src (h1 ▸ hnd.1)]
        rw [← heq] at hp
        simp only [Option.isSome_none]
        exact ((Bool.not_eq_true _).mp hp).symm
    · have hne : sf.1 ≠ src := fun h =>
        hnd.1 (h ▸ List.mem_map_of_mem Prod.fst hmem')
      by_cases hp : P sf = true
      · rw [filterMap_guard_cons_pos P mk sf rest hp,
          alookup_cons, if_neg hne]
        exact ih hnd.2 src rel hmem'
      · rw [filterMap_guard_cons_neg P mk sf rest hp]
        exact ih hnd.2 src rel hmem'

theorem alookup_filterMap_guard_some {β : Type} (P : String × String → Bool)
    (mk : String × String → β) (ss : List (String × String)) (k : String)
    (v : β) :
    alookup (ss.filterMap fun sf =>
      if P sf then some (sf.1, mk sf) else none) k = some v →
    ∃ sf ∈ ss, sf.1 = k ∧ v = mk sf := by
  induction ss with
  | nil => intro h; cases h
  | cons sf rest ih =>
    intro h
    by_cases hp : P sf = true
    · rw [filterMap_guard_cons_pos P mk sf rest hp, alookup_cons] at h
      by_cases hk : sf.1 = k
      · rw [if_pos hk] at h
        exact ⟨sf, by simp, hk, (Option.some.inj h).symm⟩
      · rw [if_neg hk] at h
        obtain ⟨sf', hmem, hk', hv⟩ := ih h
        exact ⟨sf', by simp [hmem], hk', hv⟩
    · rw [filterMap_guard_cons_neg P mk sf rest hp] at h
      obtain ⟨sf', hmem, hk', hv⟩ := ih h
      exact ⟨sf', by simp [hmem], hk', hv⟩

theorem buildSources_name (db : DB) (fs : FSNode) (track_folder : List String)
    (folder_num k : String) (sr : Option ℚ) (s : Source)
    (h : alookup (buildSources db fs track_folder folder_num sr) k = some s) :
    s.name = k := by
  rw [buildSources_eq] at h
  obtain ⟨sf, _, hk, hv⟩ := alookup_filterMap_guard_some _ _ _ _ _ h
  rw [hv]
  exact hk

/-- C5: a source appears in a track's sources mapping iff a file exists at
the joined candidate path; a missing declared source never aborts the build
(the track is still returned); every target in the composed mapping has a
nonempty source list drawn from the present sources; and a declared target
all of whose declared sources are absent is itself absent. -/
theorem c5_source_resolution (db : DB) (fs : FSNode)
    (track_folder : List String) (folder_num : String) (sr : Option ℚ) :
    ((db.setup.sources.map Prod.fst).Nodup →
      ∀ src rel, (src, rel) ∈ db.setup.sources →
        (alookup (buildSources db fs track_folder folder_num sr) src).isSome =
          pathExists fs (track_folder ++ [folder_num, rel])) ∧
    (∀ k s,
      alookup (buildSources db fs track_folder folder_num sr) k = some s →
        s.name = k) ∧
    (db.sample_rate = some sr → ∀ subset track_name,
      buildTrack db fs subset track_name track_folder folder_num =
        .ok (builtTrack db fs subset track_name track_folder folder_num sr)) ∧
    (∀ sources : List (String × Source),
      (∀ k s, alookup sources k = some s → s.name = k) →
      ∀ tname T, alookup (create_targets db.setup sources).2 tname = some T →
        T.sources ≠ [] ∧
          ∀ s ∈ T.sources, (alookup sources s.name).isSome = true) ∧
    (∀ sources : List (String × Source),
      (db.setup.targets.map Prod.fst).Nodup →
      ∀ tname pairs, (tname, pairs) ∈ db.setup.targets →
        (∀ p ∈ pairs, alookup sources p.1 = none) →
        alookup (create_targets db.setup sources).2 tname = none) := by
  refine ⟨?_, ?_, ?_, ?_, ?_⟩
  · intro hnd src rel hmem
    rw [buildSources_eq]
    exact alookup_filterMap_guard _ _ _ hnd src rel hmem
  · intro k s h
    exact buildSources_name db fs track_folder folder_num k sr s h
  · intro h subset track_name
    exact buildTrack_some h fs subset track_name track_folder folder_num
  · intro sources hco tname T h
    exact create_targets_lookup_some db.setup sources hco tname T h
  · intro sources hnd tname pairs hmem habs
    rw [create_targets_snd, alookup_map_values,
      createTargetsAux_alookup_none db.setup.targets sources hnd
        tname pairs hmem habs]
    rfl

/-- C5 witness: in variant `A/1` of the fixture tree only the mixture file
exists, so `vocals` resolves to nothing, the track is still built, and the
target `t` (whose declared sources are all absent) is absent. -/
theorem c5_source_resolution_witness :
    (exSetup.sources.map Prod.fst).Nodup ∧
    (alookup (buildSources exDBW exFSW ["data", "train", "drums", "A"]
        ("1") none) ("vocals")).isSome =
      pathExists exFSW ["data", "train", "drums", "A", "1", "vocals.wav"] ∧
    exDBW.sample_rate = some none ∧
    buildTrack exDBW exFSW ("train") ("A") ["data", "train", "drums", "A"]
        ("1") =
      .ok (builtTrack exDBW exFSW ("train") ("A")
        ["data", "train", "drums", "A"] ("1") none) ∧
    alookup (create_targets exSetup (buildSources exDBW exFSW
        ["data", "train", "drums", "A"] ("1") none)).2 ("t") = none :=
  ⟨by decide,
   (c5_source_resolution exDBW exFSW ["data", "train", "drums", "A"] ("1")
       none).1 (by decide) ("vocals") ("vocals.wav") (by decide),
   rfl,
   (c5_source_resolution exDBW exFSW ["data", "train", "drums", "A"] ("1")
       none).2.2.1 rfl ("train") ("A"),
   (c5_source_resolution exDBW exFSW ["data", "train", "drums", "A"] ("1")
       none).2.2.2.2 _ (by decide) ("t") [(("vocals" : String), 1/2),
         (("drums" : String), 1)] (by simp [exDBW, exSetup]) (by decide)⟩

theorem createTargetsAux_snd_cons_pos {sources : List (String × Source)}
    {tp : String × List (String × ℚ)}
    (he : (composePairs sources tp.2).2.isEmpty = true)
    (rest : List (String × List (String × ℚ))) :
    (createTargetsAux sources (tp :: rest)).2 =
      (createTargetsAux (composePairs sources tp.2).1 rest).2 := by
  simp [createTargetsAux, he]

theorem createTargetsAux_snd_cons_neg {sources : List (String × Source)}
    {tp : String × List (String × ℚ)}
    (he : ¬(composePairs sources tp.2).2.isEmpty = true)
    (rest : List (String × List (String × ℚ))) :
    (createTargetsAux sources (tp :: rest)).2 =
      (tp.1, (composePairs sources tp.2).2) ::
        (createTargetsAux (composePairs sources tp.2).1 rest).2 := by
  simp [createTargetsAux, he]

theorem createTargetsAux_keys_filter
    (spec : List (String × List (String × ℚ))) :
    ∀ sources : List (String × Source),
      (createTargetsAux sources spec).2.map Prod.fst =
        (spec.filter fun tp =>
          tp.2.any fun p => (alookup sources p.1).isSome).map Prod.fst := by
  induction spec with
  | nil => intro sources; rfl
  | cons tp rest ih =>
    intro sources
    have hfn : (fun p : String × ℚ =>
        (alookup (composePairs sources tp.2).1 p.1).isSome) =
        fun p => (alookup sources p.1).isSome :=
      funext fun p => composePairs_fst_isSome tp.2 sources p.1
    by_cases he : (composePairs sources tp.2).2.isEmpty = true
    · have hany : (tp.2.any fun p => (alookup sources p.1).isSome) = false := by
        have hnil := (composePairs_snd_nil_iff tp.2 sources).mp
          (List.isEmpty_iff.mp he)
        rw [List.any_eq_false]
        intro p hp
        simp [hnil p hp]
      rw [createTargetsAux_snd_cons_pos he, ih (composePairs sources tp.2).1]
      simp only [hfn]
      simp [List.filter_cons, hany]
    · have hany : (tp.2.any fun p => (alookup sources p.1).isSome) = true := by
        by_contra hfalse
        rw [Bool.not_eq_true, List.any_eq_false] at hfalse
        have hall : ∀ p ∈ tp.2, (alookup sources p.1).isSome = false :=
          fun p hp => by simpa using hfalse p hp
        exact he (List.isEmpty_iff.mpr
          ((composePairs_snd_nil_iff tp.2 sources).mpr hall))
      rw [createTargetsAux_snd_cons_neg he, List.map_cons,
        ih (composePairs sources tp.2).1]
      simp only [hfn]
      simp [List.filter_cons, hany]

/-- C6: targets are composed in specification order (the composed targets'
key sequence is the specification's key sequence restricted to targets with
at least one present source), and on the concrete target
`{sourceA: 0.5, sourceB: 1.0}` with both sources present the composition
sets `sourceA.gain = 1/2`, `sourceB.gain = 1`, and the target's source list
is `[sourceA, sourceB]` in declaration order. -/
theorem c6_gain_propagation :
    (∀ (setup : Setup) (sources : List (String × Source)),
      (create_targets setup sources).2.map Prod.fst =
        (setup.targets.filter fun tp =>
          tp.2.any fun p => (alookup sources p.1).isSome).map Prod.fst) ∧
    ((create_targets c6Setup c6Sources).1.map fun e => (e.1, e.2.gain)) =
      [(("sourceA" : String), (1/2 : ℚ)), (("sourceB" : String), 1)] ∧
    ((create_targets c6Setup c6Sources).2.map fun e =>
        (e.1, e.2.sources.map Source.name)) =
      [(("acc" : String), ["sourceA", "sourceB"])] ∧
    ((create_targets c6Setup c6Sources).2.map fun e =>
        (e.1, e.2.sources.map Source.gain)) =
      [(("acc" : String), [(1/2 : ℚ), 1])] := by
  refine ⟨?_, rfl, rfl, rfl⟩
  intro setup sources
  rw [create_targets_snd, List.map_map]
  have hcomp : Prod.fst ∘ (fun t : String × List String =>
      (t.1, materializeTarget (createTargetsAux sources setup.targets).1
        t.1 t.2)) = Prod.fst := funext fun t => rfl
  rw [hcomp]
  exact createTargetsAux_keys_filter setup.targets sources

/-- C7 witness: the source `a` referenced by `t1` with gain 1/2 and then by
`t2` with gain 1/4 ends up with gain 1/4. -/
theorem c7_last_gain_wins_witness :
    alookup [(("a" : String), c7Src)] ("a") = some c7Src ∧
    alookup (create_targets c7Setup [(("a" : String), c7Src)]).1 ("a") =
      some { c7Src with gain := 1/4 } :=
  ⟨rfl, by
    rw [c7_last_gain_wins c7Setup [(("a" : String), c7Src)] ("a") c7Src rfl]
    rfl⟩

theorem exceptMap_nil {α β : Type} (f : α → Except PyError β) :
    exceptMap f [] = .ok [] := rfl

theorem exceptMap_cons {α β : Type} (f : α → Except PyError β) (a : α)
    (rest : List α) :
    exceptMap f (a :: rest) =
      match f a with
      | .error e => .error e
      | .ok b =>
        match exceptMap f rest with
        | .error e => .error e
        | .ok bs => .ok (b :: bs) := rfl

theorem exceptMap_ok_forall₂ {α β : Type} {f : α → Except PyError β}
    {l : List α} {res : List β} (h : exceptMap f l = .ok res) :
    List.Forall₂ (fun a b => f a = .ok b) l res := by
  induction l generalizing res with
  | nil => rw [exceptMap_nil] at h; cases h; exact List.Forall₂.nil
  | cons a rest ih =>
    rw [exceptMap_cons] at h
    cases hfa : f a with
    | error e => rw [hfa] at h; cases h
    | ok b =>
      rw [hfa] at h
      cases hrest : exceptMap f rest with
      | error e => rw [hrest] at h; cases h
      | ok bs =>
        rw [hrest] at h
        cases h
        exact List.Forall₂.cons hfa (ih hrest)

theorem exceptMap_error_mem {α β : Type} {f : α → Except PyError β}
    {l : List α} {e : PyError} (h : exceptMap f l = .error e) :
    ∃ a ∈ l, f a = .error e := by
  induction l with
  | nil => rw [exceptMap_nil] at h; cases h
  | cons a rest ih =>
    rw [exceptMap_cons] at h
    cases hfa : f a with
    | error e' =>
      rw [hfa] at h
      cases h
      exact ⟨a, by simp, hfa⟩
    | ok b =>
      rw [hfa] at h
      cases hrest : exceptMap f rest with
      | error e' =>
        rw [hrest] at h
        cases h
        obtain ⟨x, hx, hfx⟩ := ih hrest
        exact ⟨x, by simp [hx], hfx⟩
      | ok bs => rw [hrest] at h; cases h

theorem exceptMap_error_of_mem {α β : Type} {f : α → Except PyError β}
    {l : List α} {a : α} (hmem : a ∈ l) (ha : f a = .error .valueError)
    (honly : ∀ x e, f x = .error e → e = .valueError) :
    exceptMap f l = .error .valueError := by
  induction l with
  | nil => cases hmem
  | cons x rest ih =>
    rw [exceptMap_cons]
    cases hfx : f x with
    | error e =>
      have he : e = .valueError := honly x e hfx
      subst he
      rfl
    | ok b =>
      rcases List.mem_cons.mp hmem with heq | hmem'
      · rw [← heq] at hfx
        rw [hfx] at ha
        cases ha
      · rw [ih hmem']

theorem listIndex_ok {l : List String} {n : String} {i : Nat}
    (h : listIndex l n = .ok i) :
    l[i]? = some n ∧ ∀ j < i, l[j]? ≠ some n := by
  induction l generalizing i with
  | nil => cases h
  | cons x rest ih =>
    unfold listIndex at h
    by_cases hx : x = n
    · rw [if_pos hx] at h
      cases h
      exact ⟨by simp [hx], fun j hj => absurd hj (Nat.not_lt_zero j)⟩
    · rw [if_neg hx] at h
      cases hr : listIndex rest n with
      | error e => rw [hr] at h; cases h
      | ok i' =>
        rw [hr] at h
        cases h
        obtain ⟨h1, h2⟩ := ih hr
        refine ⟨by simpa using h1, ?_⟩
        intro j hj
        cases j with
        | zero => simp [hx]
        | succ j' =>
          have hj' : j' < i' := Nat.lt_of_succ_lt_succ hj
          simpa using h2 j' hj'

theorem listIndex_error_val {l : List String} {n : String} {e : PyError}
    (h : listIndex l n = .error e) : e = .valueError := by
  induction l with
  | nil => cases h; rfl
  | cons x rest ih =>
    unfold listIndex at h
    by_cases hx : x = n
    · rw [if_pos hx] at h; cases h
    · rw [if_neg hx] at h
      cases hr : listIndex rest n with
      | error e' =>
        rw [hr] at h
        cases h
        exact ih hr
      | ok i => rw [hr] at h; cases h

theorem listIndex_error_iff (l : List String) (n : String) :
    listIndex l n = .error .valueError ↔ n ∉ l := by
  induction l with
  | nil => simp [listIndex]
  | cons x rest ih =>
    unfold listIndex
    by_cases hx : x = n
    · rw [if_pos hx]
      simp [hx]
    · rw [if_neg hx]
      cases hr : listIndex rest n with
      | error e =>
        have he := listIndex_error_val hr
        subst he
        simp only [List.mem_cons, not_or]
        constructor
        · intro _
          exact ⟨fun hn => hx hn.symm, ih.mp hr⟩
        · intro _
          trivial
      | ok i =>
        simp only [List.mem_cons, not_or]
        constructor
        · intro h; cases h
        · intro hn
          rw [ih.mpr hn.2] at hr
          cases hr

/-- C8: a successful index lookup returns, per requested name in request
order, the position of the first catalog entry bearing that name; the call
fails (with `ValueError`, the only possible error) exactly when some
requested name is absent from the catalog. -/
theorem c8_index_lookup (tracks : List MultiTrack) (namesArg : NamesArg) :
    (∀ res, get_track_indices_by_names tracks namesArg = .ok res →
      List.Forall₂ (fun n i =>
        (tracks.map MultiTrack.name)[i]? = some n ∧
          ∀ j < i, (tracks.map MultiTrack.name)[j]? ≠ some n)
        (normalizeNames namesArg) res) ∧
    (get_track_indices_by_names tracks namesArg = .error .valueError ↔
      ∃ n ∈ normalizeNames namesArg, n ∉ tracks.map MultiTrack.name) ∧
    (∀ e, get_track_indices_by_names tracks namesArg = .error e →
      e = .valueError) := by
  refine ⟨?_, ⟨?_, ?_⟩, ?_⟩
  · intro res h
    exact List.Forall₂.imp (fun a b hab => listIndex_ok hab)
      (exceptMap_ok_forall₂ h)
  · intro h
    obtain ⟨n, hn, hfn⟩ := exceptMap_error_mem h
    exact ⟨n, hn, (listIndex_error_iff _ n).mp hfn⟩
  · intro ⟨n, hn, habs⟩
    exact exceptMap_error_of_mem hn ((listIndex_error_iff _ n).mpr habs)
      fun x e hx => listIndex_error_val hx
  · intro e h
    obtain ⟨n, _, hfn⟩ := exceptMap_error_mem h
    exact listIndex_error_val hfn

/-- C8 witness: on the three-track fixture catalog, looking up
`["Song A", "Song B"]` yields `[0, 1]` (first matches), and looking up an
absent name fails with `ValueError`. -/
theorem c8_index_lookup_witness :
    get_track_indices_by_names exCatalog
      (NamesArg.listArg ["Song A", "Song B"]) = .ok [0, 1] ∧
    List.Forall₂ (fun n i =>
      (exCatalog.map MultiTrack.name)[i]? = some n ∧
        ∀ j < i, (exCatalog.map MultiTrack.name)[j]? ≠ some n)
      ["Song A", "Song B"] [0, 1] ∧
    get_track_indices_by_names exCatalog (NamesArg.listArg ["Song C"]) =
      .error .valueError :=
  ⟨rfl,
   (c8_index_lookup exCatalog (NamesArg.listArg ["Song A", "Song B"])).1
     [0, 1] rfl,
   (c8_index_lookup exCatalog (NamesArg.listArg ["Song C"])).2.1.mpr
     ⟨"Song C", by decide, by decide⟩⟩

theorem any_key_eq_isSome {α : Type} (files : List (List String × α))
    (p : List String) :
    (files.any fun f => decide (f.1 = p)) = (alookup files p).isSome := by
  induction files with
  | nil => rfl
  | cons f rest ih =>
    by_cases hf : f.1 = p <;> simp [alookup_cons, hf, ih]

theorem alookup_append {κ β : Type} [DecidableEq κ] (l1 l2 : List (κ × β))
    (k : κ) :
    alookup (l1 ++ l2) k = (alookup l1 k).or (alookup l2 k) := by
  induction l1 with
  | nil => rfl
  | cons e rest ih =>
    by_cases he : e.1 = k <;> simp [alookup_cons, he, ih]

theorem alookup_replace_of_any {α : Type} (p : List String) (e : α) :
    ∀ files : List (List String × α),
      (files.any fun f => decide (f.1 = p)) = true →
      alookup (files.map fun f => if f.1 = p then (p, e) else f) p = some e := by
  intro files
  induction files with
  | nil => intro h; simp at h
  | cons f rest ih =>
    intro h
    rw [List.map_cons]
    by_cases hf : f.1 = p
    · rw [if_pos hf, alookup_cons, if_pos rfl]
    · rw [if_neg hf, alookup_cons, if_neg hf]
      apply ih
      simp only [List.any_cons, Bool.or_eq_true] at h
      rcases h with h | h
      · exact absurd (of_decide_eq_true h) hf
      · exact h

theorem alookup_replace_other {α : Type} (p : List String) (e : α)
    (q : List String) (hq : q ≠ p) :
    ∀ files : List (List String × α),
      alookup (files.map fun f => if f.1 = p then (p, e) else f) q =
        alookup files q := by
  intro files
  induction files with
  | nil => rfl
  | cons f rest ih =>
    rw [List.map_cons]
    by_cases hf : f.1 = p
    · rw [if_pos hf, alookup_cons, alookup_cons, if_neg fun h => hq h.symm,
        if_neg fun h => hq ((hf ▸ h : p = q)).symm]
      exact ih
    · rw [if_neg hf, alookup_cons, alookup_cons]
      by_cases hfq : f.1 = q
      · rw [if_pos hfq, if_pos hfq]
      · rw [if_neg hfq, if_neg hfq]
        exact ih

theorem writeFile_alookup_self {α : Type} (files : List (List String × α))
    (p : List String) (e : α) :
    alookup (writeFile files p e) p = some e := by
  unfold writeFile
  by_cases h : (files.any fun f => decide (f.1 = p)) = true
  · rw [if_pos h]
    exact alookup_replace_of_any p e files h
  · rw [if_neg h]
    have hnone : alookup files p = none := by
      cases ha : alookup files p with
      | none => rfl
      | some v =>
        exfalso
        apply h
        rw [any_key_eq_isSome, ha]
        rfl
    rw [alookup_append, hnone, alookup_cons, if_pos rfl]
    rfl

theorem writeFile_alookup_other {α : Type} (files : List (List String × α))
    (p : List String) (e : α) (q : List String) (hq : q ≠ p) :
    alookup (writeFile files p e) q = alookup files q := by
  unfold writeFile
  by_cases h : (files.any fun f => decide (f.1 = p)) = true
  · rw [if_pos h]
    exact alookup_replace_other p e q hq files
  · rw [if_neg h, alookup_append, alookup_cons,
      if_neg fun hpq => hq hpq.symm]
    exact Option.or_none

theorem writeFile_inv {α : Type} (files : List (List String × α))
    (p : List String) (e : α) :
    ∀ f ∈ writeFile files p e, f.1 = p → f = (p, e) := by
  unfold writeFile
  by_cases h : (files.any fun f => decide (f.1 = p)) = true
  · rw [if_pos h]
    intro f hf _
    obtain ⟨g, _, hg⟩ := List.mem_map.mp hf
    by_cases hgp : g.1 = p
    · rw [if_pos hgp] at hg
      exact hg.symm
    · rw [if_neg hgp] at hg
      exact absurd (hg ▸ ‹f.1 = p›) hgp
  · rw [if_neg h]
    intro f hf hfp
    rcases List.mem_append.mp hf with hf' | hf'
    · exfalso
      apply h
      rw [List.any_eq_true]
      exact ⟨f, hf', decide_eq_true hfp⟩
    · simpa using hf'

theorem writeFile_inv_preserve {α : Type} (files : List (List String × α))
    (q : List String) (e' : α) (p : List String) (e : α) (hq : q ≠ p)
    (hinv : ∀ f ∈ files, f.1 = p → f = (p, e)) :
    ∀ f ∈ writeFile files q e', f.1 = p → f = (p, e) := by
  unfold writeFile
  by_cases h : (files.any fun f => decide (f.1 = q)) = true
  · rw [if_pos h]
    intro f hf hfp
    obtain ⟨g, hgmem, hg⟩ := List.mem_map.mp hf
    by_cases hgq : g.1 = q
    · rw [if_pos hgq] at hg
      rw [← hg] at hfp
      exact absurd hfp hq
    · rw [if_neg hgq] at hg
      rw [← hg] at hfp ⊢
      exact hinv g hgmem hfp
  · rw [if_neg h]
    intro f hf hfp
    rcases List.mem_append.mp hf with hf' | hf'
    · exact hinv f hf' hfp
    · have hfe : f = (q, e') := by simpa using hf'
      rw [hfe] at hfp
      exact absurd hfp hq

theorem writeFile_stable {α : Type} (files : List (List String × α))
    (p : List String) (e : α)
    (h1 : (alookup files p).isSome = true)
    (h2 : ∀ f ∈ files, f.1 = p → f = (p, e)) :
    writeFile files p e = files := by
  unfold writeFile
  rw [if_pos (by rw [any_key_eq_isSome]; exact h1)]
  have : files.map (fun f => if f.1 = p then (p, e) else f) =
      files.map id := by
    apply List.map_congr_left
    intro f hf
    by_cases hfp : f.1 = p
    · rw [if_pos hfp, (h2 f hf hfp)]
      rfl
    · rw [if_neg hfp]
      rfl
  rw [this, List.map_id]

theorem foldWrite_other {α : Type} (pf : String → List String)
    (est : List (String × α)) :
    ∀ (F : List (List String × α)) (p : List String),
      (∀ te ∈ est, pf te.1 ≠ p) →
      alookup (est.foldl (fun files te => writeFile files (pf te.1) te.2) F)
        p = alookup F p := by
  induction est with
  | nil => intro F p _; rfl
  | cons te0 rest ih =>
    intro F p hne
    rw [List.foldl_cons, ih _ p fun te hte => hne te (by simp [hte])]
    exact writeFile_alookup_other F (pf te0.1) te0.2 p
      fun h => hne te0 (by simp) h.symm

theorem foldWrite_lookup {α : Type} (pf : String → List String)
    (hinj : ∀ x y, pf x = pf y → x = y) (est : List (String × α)) :
    ∀ F : List (List String × α), (est.map Prod.fst).Nodup →
      ∀ te ∈ est,
        alookup (est.foldl (fun files te => writeFile files (pf te.1) te.2) F)
          (pf te.1) = some te.2 := by
  induction est with
  | nil => intro F _ te hte; cases hte
  | cons te0 rest ih =>
    intro F hnd te hte
    rw [List.map_cons, List.nodup_cons] at hnd
    rw [List.foldl_cons]
    rcases List.mem_cons.mp hte with heq | hte'
    · subst heq
      rw [foldWrite_other pf rest _ (pf te.1) fun te' hte' h =>
        hnd.1 (hinj te'.1 te.1 h ▸ List.mem_map_of_mem Prod.fst hte')]
      exact writeFile_alookup_self F (pf te.1) te.2
    · exact ih _ hnd.2 te hte'

theorem foldWrite_inv_preserve {α : Type} (pf : String → List String)
    (rest : List (String × α)) :
    ∀ (F : List (List String × α)) (p : List String) (e : α),
      (∀ te ∈ rest, pf te.1 ≠ p) →
      (∀ f ∈ F, f.1 = p → f = (p, e)) →
      ∀ f ∈ rest.foldl (fun files te => writeFile files (pf te.1) te.2) F,
        f.1 = p → f = (p, e) := by
  induction rest with
  | nil => intro F p e _ hinv; exact hinv
  | cons te1 rest' ih =>
    intro F p e hne hinv
    rw [List.foldl_cons]
    exact ih _ p e (fun te hte => hne te (by simp [hte]))
      (writeFile_inv_preserve F (pf te1.1) te1.2 p e
        (fun h => hne te1 (by simp) h) hinv)

theorem foldWrite_inv {α : Type} (pf : String → List String)
    (hinj : ∀ x y, pf x = pf y → x = y) (est : List (String × α)) :
    ∀ F : List (List String × α), (est.map Prod.fst).Nodup →
      ∀ te ∈ est,
        ∀ f ∈ est.foldl (fun files te => writeFile files (pf te.1) te.2) F,
          f.1 = pf te.1 → f = (pf te.1, te.2) := by
  induction est with
  | nil => intro F _ te hte; cases hte
  | cons te0 rest ih =>
    intro F hnd te hte
    rw [List.map_cons, List.nodup_cons] at hnd
    rw [List.foldl_cons]
    rcases List.mem_cons.mp hte with heq | hte'
    · subst heq
      exact foldWrite_inv_preserve pf rest _ (pf te.1) te.2
        (fun te' hte' h =>
          hnd.1 (hinj te'.1 te.1 h ▸ List.mem_map_of_mem Prod.fst hte'))
        (writeFile_inv F (pf te.1) te.2)
    · exact ih _ hnd.2 te hte'

theorem foldWrite_stable {α : Type} (pf : String → List String)
    (est : List (String × α)) :
    ∀ F : List (List String × α),
      (∀ te ∈ est, (alookup F (pf te.1)).isSome = true ∧
        ∀ f ∈ F, f.1 = pf te.1 → f = (pf te.1, te.2)) →
      est.foldl (fun files te => writeFile files (pf te.1) te.2) F = F := by
  induction est with
  | nil => intro F _; rfl
  | cons te0 rest ih =>
    intro F h
    rw [List.foldl_cons,
      writeFile_stable F (pf te0.1) te0.2 (h te0 (by simp)).1
        (h te0 (by simp)).2]
    exact ih F fun te hte => h te (by simp [hte])

theorem wavPath_inj (d : List String) (x y : String)
    (h : d ++ [x ++ ".wav"] = d ++ [y ++ ".wav"]) : x = y := by
  have h1 : [x ++ (".wav" : String)] = [y ++ ".wav"] :=
    List.append_cancel_left h
  have h2 : x ++ (".wav" : String) = y ++ ".wav" := by simpa using h1
  have h3 : x.data ++ (".wav" : String).data =
      y.data ++ (".wav" : String).data := by
    rw [← String.data_append, ← String.data_append, h2]
  exact String.ext (List.append_cancel_right h3)

theorem save_estimates_ok {α : Type} (fs : OutFS α)
    (est : List (String × α)) (track : MultiTrack) (dir : List String) :
    save_estimates fs est track dir false =
      .ok { dirs :=
              if (dir ++ [track.subset, track.name]) ∈ fs.dirs then fs.dirs
              else fs.dirs ++
                (dir ++ [track.subset, track.name]).inits.filter
                  fun q => decide (q ≠ [] ∧ q ∉ fs.dirs),
            files := est.foldl (fun files te =>
              writeFile files ((dir ++ [track.subset, track.name]) ++
                [te.1 ++ ".wav"]) te.2) fs.files } := by
  by_cases hd : (dir ++ [track.subset, track.name]) ∈ fs.dirs <;>
    simp [save_estimates, osMakedirs, hd]

theorem mem_dirs_after (dirs : List (List String)) (d : List String)
    (hdne : d ≠ []) :
    d ∈ (if d ∈ dirs then dirs
         else dirs ++ d.inits.filter fun q => decide (q ≠ [] ∧ q ∉ dirs)) := by
  by_cases hd : d ∈ dirs
  · rw [if_pos hd]; exact hd
  · rw [if_neg hd]
    refine List.mem_append.mpr (Or.inr (List.mem_filter.mpr ⟨?_, ?_⟩))
    · exact (List.mem_inits _ _).mpr (List.prefix_refl _)
    · exact decide_eq_true ⟨hdne, hd⟩

theorem save_estimates_mk {α : Type} (dirs : List (List String))
    (files : List (List String × α)) (est : List (String × α))
    (track : MultiTrack) (dir : List String) :
    save_estimates (OutFS.mk dirs files) est track dir false =
      .ok { dirs :=
              if (dir ++ [track.subset, track.name]) ∈ dirs then dirs
              else dirs ++
                (dir ++ [track.subset, track.name]).inits.filter
                  fun q => decide (q ≠ [] ∧ q ∉ dirs),
            files := est.foldl (fun fls te =>
              writeFile fls ((dir ++ [track.subset, track.name]) ++
                [te.1 ++ ".wav"]) te.2) files } :=
  save_estimates_ok (OutFS.mk dirs files) est track dir

theorem save_estimates_idem {α : Type} (fs : OutFS α)
    (est : List (String × α)) (track : MultiTrack) (dir : List String)
    (hnd : (est.map Prod.fst).Nodup) :
    ∀ fs', save_estimates fs est track dir false = .ok fs' →
      save_estimates fs' est track dir false = .ok fs' := by
  intro fs' h
  rw [save_estimates_ok] at h
  have hR := Except.ok.inj h
  subst hR
  rw [save_estimates_mk]
  apply congrArg Except.ok
  have hdd : (dir ++ [track.subset, track.name]) ∈
      (if (dir ++ [track.subset, track.name]) ∈ fs.dirs then fs.dirs
       else fs.dirs ++ (dir ++ [track.subset, track.name]).inits.filter
         fun q => decide (q ≠ [] ∧ q ∉ fs.dirs)) :=
    mem_dirs_after fs.dirs _ (by simp)
  rw [if_pos hdd]
  have hff := foldWrite_stable
    (fun x => (dir ++ [track.subset, track.name]) ++ [x ++ ".wav"]) est
    (est.foldl (fun fls te =>
      writeFile fls ((dir ++ [track.subset, track.name]) ++
        [te.1 ++ ".wav"]) te.2) fs.files)
    (fun te hte =>
      ⟨by
        rw [foldWrite_lookup
          (fun x => (dir ++ [track.subset, track.name]) ++ [x ++ ".wav"])
          (wavPath_inj (dir ++ [track.subset, track.name]))
          est fs.files hnd te hte]
        rfl,
       foldWrite_inv
        (fun x => (dir ++ [track.subset, track.name]) ++ [x ++ ".wav"])
        (wavPath_inj (dir ++ [track.subset, track.name]))
        est fs.files hnd te hte⟩)
  rw [hff]

/-- C9: `save_estimates` (without stem mode) succeeds, leaves the target
directory present (creating it and every missing parent when it was
absent), records every estimate exactly at
`dir/track.subset/track.name/target.wav`, touches no other file path, and a
second identical call returns the same state unchanged (no error, no
duplicated directory). -/
theorem c9_write_estimates {α : Type} (fs : OutFS α)
    (estimates : List (String × α)) (track : MultiTrack)
    (estimates_dir : List String)
    (hnd : (estimates.map Prod.fst).Nodup) :
    ∃ fs', save_estimates fs estimates track estimates_dir false = .ok fs' ∧
      (estimates_dir ++ [track.subset, track.name]) ∈ fs'.dirs ∧
      ((estimates_dir ++ [track.subset, track.name]) ∉ fs.dirs →
        ∀ q ∈ (estimates_dir ++ [track.subset, track.name]).inits, q ≠ [] →
          q ∈ fs'.dirs) ∧
      (∀ te ∈ estimates,
        alookup fs'.files ((estimates_dir ++ [track.subset, track.name]) ++
          [te.1 ++ ".wav"]) = some te.2) ∧
      (∀ p : List String,
        (∀ te ∈ estimates,
          p ≠ (estimates_dir ++ [track.subset, track.name]) ++
            [te.1 ++ ".wav"]) →
        alookup fs'.files p = alookup fs.files p) ∧
      save_estimates fs' estimates track estimates_dir false = .ok fs' := by
  refine ⟨_, save_estimates_ok fs estimates track estimates_dir,
    ?_, ?_, ?_, ?_, ?_⟩
  · show (estimates_dir ++ [track.subset, track.name]) ∈
      (if (estimates_dir ++ [track.subset, track.name]) ∈ fs.dirs then fs.dirs
       else fs.dirs ++ (estimates_dir ++
         [track.subset, track.name]).inits.filter
           fun q => decide (q ≠ [] ∧ q ∉ fs.dirs))
    by_cases hd : (estimates_dir ++ [track.subset, track.name]) ∈ fs.dirs
    · rw [if_pos hd]; exact hd
    · rw [if_neg hd]
      refine List.mem_append.mpr (Or.inr (List.mem_filter.mpr ⟨?_, ?_⟩))
      · exact (List.mem_inits _ _).mpr (List.prefix_refl _)
      · refine decide_eq_true ⟨?_, hd⟩
        simp
  · intro hd q hq hqne
    show q ∈ (if (estimates_dir ++ [track.subset, track.name]) ∈ fs.dirs
      then fs.dirs
      else fs.dirs ++ (estimates_dir ++
        [track.subset, track.name]).inits.filter
          fun q => decide (q ≠ [] ∧ q ∉ fs.dirs))
    rw [if_neg hd]
    by_cases hqd : q ∈ fs.dirs
    · exact List.mem_append.mpr (Or.inl hqd)
    · exact List.mem_append.mpr (Or.inr (List.mem_filter.mpr
        ⟨hq, decide_eq_true ⟨hqne, hqd⟩⟩))
  · intro te hte
    exact foldWrite_lookup
      (fun x => (estimates_dir ++ [track.subset, track.name]) ++
        [x ++ ".wav"])
      (wavPath_inj (estimates_dir ++ [track.subset, track.name]))
      estimates fs.files hnd te hte
  · intro p hp
    exact foldWrite_other
      (fun x => (estimates_dir ++ [track.subset, track.name]) ++
        [x ++ ".wav"])
      estimates fs.files p (fun te hte h => hp te hte h.symm)
  · exact save_estimates_idem fs estimates track estimates_dir hnd _
      (save_estimates_ok fs estimates track estimates_dir)

/-- C9 witness: writing `{"vocals": 7}` for `subset="test", name="Song A"`
under `["out"]` starting from an empty state creates exactly the nested
directories and the single file, and the theorem's conclusion holds. -/
theorem c9_write_estimates_witness :
    (([(("vocals" : String), (7 : Nat))].map Prod.fst)).Nodup ∧
    (∃ fs', save_estimates (OutFS.mk [] []) [(("vocals" : String), (7 : Nat))]
        (mkBareTrack ("test") ("Song A")) ["out"] false = .ok fs' ∧
      (["out"] ++ [(mkBareTrack ("test") ("Song A")).subset,
        (mkBareTrack ("test") ("Song A")).name]) ∈ fs'.dirs ∧
      ((["out"] ++ [(mkBareTrack ("test") ("Song A")).subset,
          (mkBareTrack ("test") ("Song A")).name]) ∉
            (OutFS.mk [] [] : OutFS Nat).dirs →
        ∀ q ∈ (["out"] ++ [(mkBareTrack ("test") ("Song A")).subset,
          (mkBareTrack ("test") ("Song A")).name]).inits, q ≠ [] →
          q ∈ fs'.dirs) ∧
      (∀ te ∈ [(("vocals" : String), (7 : Nat))],
        alookup fs'.files ((["out"] ++
          [(mkBareTrack ("test") ("Song A")).subset,
           (mkBareTrack ("test") ("Song A")).name]) ++ [te.1 ++ ".wav"]) =
          some te.2) ∧
      (∀ p : List String,
        (∀ te ∈ [(("vocals" : String), (7 : Nat))],
          p ≠ (["out"] ++ [(mkBareTrack ("test") ("Song A")).subset,
            (mkBareTrack ("test") ("Song A")).name]) ++ [te.1 ++ ".wav"]) →
        alookup fs'.files p = alookup (OutFS.mk [] [] : OutFS Nat).files p) ∧
      save_estimates fs' [(("vocals" : String), (7 : Nat))]
        (mkBareTrack ("test") ("Song A")) ["out"] false = .ok fs') ∧
    save_estimates (OutFS.mk [] []) [(("vocals" : String), (7 : Nat))]
        (mkBareTrack ("test") ("Song A")) ["out"] false =
      .ok (OutFS.mk [["out"], ["out", "test"], ["out", "test", "Song A"]]
        [(["out", "test", "Song A", "vocals.wav"], 7)]) :=
  ⟨by decide,
   c9_write_estimates (OutFS.mk [] []) [(("vocals" : String), (7 : Nat))]
     (mkBareTrack ("test") ("Song A")) ["out"] (by decide),
   rfl⟩

theorem exceptFlatMap_emptyOrAttr {α : Type}
    {f g : α → Except PyError (List MultiTrack)} {l : List α}
    (h : ∀ a ∈ l, (f a = .ok [] ∧ g a = .ok []) ∨
      (f a = .error .attributeError ∧ ∃ bs, g a = .ok bs ∧ bs ≠ [])) :
    (exceptFlatMap f l = .ok [] ∧ exceptFlatMap g l = .ok []) ∨
      (exceptFlatMap f l = .error .attributeError ∧
        ∃ bs, exceptFlatMap g l = .ok bs ∧ bs ≠ []) := by
  induction l with
  | nil => exact Or.inl ⟨rfl, rfl⟩
  | cons a rest ih =>
    rcases h a (by simp) with ⟨hfa, hga⟩ | ⟨hfa, bs, hga, hbs⟩
    · rcases ih (fun x hx => h x (by simp [hx])) with
        ⟨hfr, hgr⟩ | ⟨hfr, cs, hgr, hcs⟩
      · exact Or.inl ⟨by rw [exceptFlatMap_cons, hfa, hfr]; rfl,
          by rw [exceptFlatMap_cons, hga, hgr]; rfl⟩
      · refine Or.inr ⟨by rw [exceptFlatMap_cons, hfa, hfr], [] ++ cs,
          by rw [exceptFlatMap_cons, hga, hgr], by simpa using hcs⟩
    · have hgall : ∀ x ∈ rest, ∃ bs', g x = .ok bs' ∧
          ∀ b ∈ bs', (fun _ : MultiTrack => True) b := by
        intro x hx
        rcases h x (by simp [hx]) with ⟨_, hgx⟩ | ⟨_, bs', hgx, _⟩
        · exact ⟨[], hgx, by simp⟩
        · exact ⟨bs', hgx, by simp⟩
      obtain ⟨cs, hcs, _⟩ := exceptFlatMap_ok_forall (fun _ => True) hgall
      refine Or.inr ⟨by rw [exceptFlatMap_cons, hfa], bs ++ cs,
        by rw [exceptFlatMap_cons, hga, hcs], by simp [hbs]⟩

theorem tracksForName_rel01 (r : String) (setup : Setup) (iw : Bool)
    (dp : List String) (ins : String) (v : Option ℚ) (fs : FSNode)
    (subset nm : String) (folder : List String) :
    (tracksForName (DB.mk r setup iw dp ins none) fs subset nm folder =
        .ok [] ∧
      tracksForName (DB.mk r setup iw dp ins (some v)) fs subset nm folder =
        .ok []) ∨
    (tracksForName (DB.mk r setup iw dp ins none) fs subset nm folder =
        .error .attributeError ∧
      ∃ bs, tracksForName (DB.mk r setup iw dp ins (some v)) fs subset nm
          folder = .ok bs ∧ bs ≠ []) := by
  unfold tracksForName
  apply exceptFlatMap_emptyOrAttr
  intro entry _
  apply exceptFlatMap_emptyOrAttr
  intro num _
  refine Or.inr ⟨?_, [builtTrack (DB.mk r setup iw dp ins (some v)) fs subset
    nm folder num v], ?_, by simp⟩
  · rw [buildTrack_none rfl]
  · rw [buildTrack_some rfl]

theorem tracksForWalkEntry_rel01 (r : String) (setup : Setup) (iw : Bool)
    (dp : List String) (ins : String) (v : Option ℚ) (fs : FSNode)
    (subset : String) (split : Option String) (entry : WalkEntry) :
    (tracksForWalkEntry (DB.mk r setup iw dp ins none) fs subset split
        entry = .ok [] ∧
      tracksForWalkEntry (DB.mk r setup iw dp ins (some v)) fs subset split
        entry = .ok []) ∨
    (tracksForWalkEntry (DB.mk r setup iw dp ins none) fs subset split
        entry = .error .attributeError ∧
      ∃ bs, tracksForWalkEntry (DB.mk r setup iw dp ins (some v)) fs subset
          split entry = .ok bs ∧ bs ≠ []) := by
  unfold tracksForWalkEntry
  by_cases hw : iw = true
  · rw [if_pos hw, if_pos hw]
    apply exceptFlatMap_emptyOrAttr
    intro nm _
    by_cases hk : keepTrack setup subset split nm = true
    · rw [if_pos hk, if_pos hk]
      exact tracksForName_rel01 r setup iw dp ins v fs subset nm _
    · rw [if_neg hk, if_neg hk]
      exact Or.inl ⟨rfl, rfl⟩
  · rw [if_neg hw, if_neg hw]
    exact Or.inl ⟨rfl, rfl⟩

theorem load_rel01 (r : String) (setup : Setup) (iw : Bool)
    (dp : List String) (ins : String) (v : Option ℚ) (fs : FSNode)
    (args : SubsetsArg) (split : Option String)
    (hc : ¬(normalizeSubsets args ≠ ["train"] ∧ split.isSome)) :
    (load_mus_tracks (DB.mk r setup iw dp ins none) fs args split =
        .ok [] ∧
      load_mus_tracks (DB.mk r setup iw dp ins (some v)) fs args split =
        .ok []) ∨
    (load_mus_tracks (DB.mk r setup iw dp ins none) fs args split =
        .error .attributeError ∧
      ∃ bs, load_mus_tracks (DB.mk r setup iw dp ins (some v)) fs args
          split = .ok bs ∧ bs ≠ []) := by
  unfold load_mus_tracks
  rw [if_neg hc, if_neg hc]
  apply exceptFlatMap_emptyOrAttr
  intro subset _
  apply exceptFlatMap_emptyOrAttr
  intro entry _
  exact tracksForWalkEntry_rel01 r setup iw dp ins v fs subset split entry

theorem load_ok_of_assigned (db : DB) {sr : Option ℚ}
    (h : db.sample_rate = some sr) (fs : FSNode) (args : SubsetsArg)
    (split : Option String)
    (hc : ¬(normalizeSubsets args ≠ ["train"] ∧ split.isSome)) :
    ∃ l, load_mus_tracks db fs args split = .ok l := by
  unfold load_mus_tracks
  rw [if_neg hc]
  have h1 : ∀ subset ∈ normalizeSubsets args, ∃ l2,
      exceptFlatMap (tracksForWalkEntry db fs subset split)
        (osWalk fs (db.data_path ++ [subset, db.instrument])) = .ok l2 ∧
      ∀ t ∈ l2, (fun _ : MultiTrack => True) t := by
    intro subset _
    have h2 : ∀ entry ∈ osWalk fs (db.data_path ++ [subset, db.instrument]),
        ∃ l3, tracksForWalkEntry db fs subset split entry = .ok l3 ∧
          ∀ t ∈ l3, (fun _ : MultiTrack => True) t := by
      intro entry _
      unfold tracksForWalkEntry
      by_cases hw : db.is_wav = true
      · rw [if_pos hw]
        have h3 : ∀ nm ∈ pySorted entry.2.1, ∃ l4,
            (if keepTrack db.setup subset split nm then
              tracksForName db fs subset nm
                (db.data_path ++ [subset, db.instrument, nm])
            else .ok []) = .ok l4 ∧
            ∀ t ∈ l4, (fun _ : MultiTrack => True) t := by
          intro nm _
          by_cases hk : keepTrack db.setup subset split nm = true
          · rw [if_pos hk]
            obtain ⟨l4, hl4, _⟩ := tracksForName_ok h fs subset nm
              (db.data_path ++ [subset, db.instrument, nm])
            exact ⟨l4, hl4, fun _ _ => trivial⟩
          · rw [if_neg hk]
            exact ⟨[], rfl, fun _ _ => trivial⟩
        obtain ⟨l3, hl3, _⟩ := exceptFlatMap_ok_forall (fun _ => True) h3
        exact ⟨l3, hl3, fun _ _ => trivial⟩
      · rw [if_neg hw]
        exact ⟨[], rfl, fun _ _ => trivial⟩
    obtain ⟨l2, hl2, _⟩ := exceptFlatMap_ok_forall (fun _ => True) h2
    exact ⟨l2, hl2, fun _ _ => trivial⟩
  obtain ⟨l, hl, _⟩ := exceptFlatMap_ok_forall (fun _ => True) h1
  exact ⟨l, hl⟩

/-- C10: with the `sample_rate` argument equal to the configuration's value
the attribute is never assigned, so construction fails with
`AttributeError` exactly when at least one track gets built (the catalog an
assigned `DB` would produce is nonempty); with a differing argument the
attribute is assigned to the argument and construction succeeds. -/
theorem c10_sample_rate_attribute (setup : Setup) (fs : FSNode)
    (is_wav : Bool) (args : SubsetsArg) (split : Option String)
    (sr : Option ℚ) (r : String) (data_path : List String) (instr : String)
    (hc : ¬(normalizeSubsets args ≠ ["train"] ∧ split.isSome)) :
    (sr = setup.sample_rate →
      (initDB (some r) setup is_wav args split sr data_path instr fs =
          .error .attributeError ↔
        ∃ l, load_mus_tracks (DB.mk r setup is_wav data_path instr (some sr))
            fs args split = .ok l ∧ l ≠ [])) ∧
    (sr ≠ setup.sample_rate →
      ∃ l, initDB (some r) setup is_wav args split sr data_path instr fs =
        .ok (DB.mk r setup is_wav data_path instr (some sr), l)) := by
  constructor
  · intro heq
    have hinit : initDB (some r) setup is_wav args split sr data_path instr
        fs = match load_mus_tracks (DB.mk r setup is_wav data_path instr
          none) fs args split with
        | .error e => .error e
        | .ok tracks =>
          .ok (DB.mk r setup is_wav data_path instr none, tracks) := by
      unfold initDB
      rw [if_neg (by simp [heq])]
    rcases load_rel01 r setup is_wav data_path instr sr fs args split hc with
      ⟨h0, h1⟩ | ⟨h0, bs, h1, hbs⟩
    · rw [hinit, h0]
      constructor
      · intro h; cases h
      · rintro ⟨l, hl, hlne⟩
        rw [h1] at hl
        exact absurd (Except.ok.inj hl).symm hlne
    · rw [hinit, h0]
      exact ⟨fun _ => ⟨bs, h1, hbs⟩, fun _ => rfl⟩
  · intro hne
    have hinit : initDB (some r) setup is_wav args split sr data_path instr
        fs = match load_mus_tracks (DB.mk r setup is_wav data_path instr
          (some sr)) fs args split with
        | .error e => .error e
        | .ok tracks =>
          .ok (DB.mk r setup is_wav data_path instr (some sr), tracks) := by
      unfold initDB
      rw [if_pos hne]
    obtain ⟨l, hl⟩ := load_ok_of_assigned
      (DB.mk r setup is_wav data_path instr (some sr)) rfl fs args
      split hc
    rw [hinit, hl]
    exact ⟨l, rfl⟩

/-- C10 witness: constructing over the per-file fixture with
`sample_rate = 44100`, equal to the configuration's value, raises
`AttributeError` as the first track is built. -/
theorem c10_sample_rate_attribute_witness :
    ¬(normalizeSubsets (SubsetsArg.strArg ("train")) ≠ ["train"] ∧
        (none : Option String).isSome) ∧
    (some (44100 : ℚ)) = exSetup.sample_rate ∧
    initDB (some ("r")) exSetup true (SubsetsArg.strArg ("train")) none
        (some 44100) ["data"] ("drums") exFSW = .error .attributeError :=
  ⟨by decide, rfl,
   ((c10_sample_rate_attribute exSetup exFSW true
       (SubsetsArg.strArg ("train")) none (some 44100) ("r") ["data"]
       ("drums") (by decide)).1 rfl).mpr ⟨_, rfl, by decide⟩⟩

end LrMusdb
